import Mathlib

/-!
Verification of the two-pass assembler: shallow embedding of the C sources
(`encoding.c`, `isa.c`, `symbols.c`, `pass2.c`, `preassembler.c`,
`assembler.c`) and proofs of the specification claims about them.

Strings are modelled as `List Char` (NUL-terminated C strings; the
terminator is the end of the list).  Machine words are `Nat` masked
explicitly; C `int`/`long` values that may be negative are `Int`.
-/

namespace ASM

/-! ## ctype helpers (C locale, ASCII) -/

/-- C `isspace`: space, tab, newline, vertical tab, form feed, carriage return. -/
def isSpaceC (c : Char) : Bool :=
  c == ' ' || c == '\t' || c == '\n' || c == '\x0b' || c == '\x0c' || c == '\r'

/-- Identifier-continuation characters of `read_word`: `[A-Za-z0-9_]`. -/
def isWordC (c : Char) : Bool := c.isAlphanum || c == '_'

/-! ## encoding.c: lexing primitives -/

/-- `skip_ws`: advance past ASCII whitespace. -/
def skipWs (p : List Char) : List Char := p.dropWhile isSpaceC

/-- `read_word`: read an identifier-like token `[A-Za-z_][A-Za-z0-9_]*`.
Returns the token and the rest, or `none`. -/
def read_word (p : List Char) : Option (List Char × List Char) :=
  match p with
  | [] => none
  | c :: _ =>
    if c.isAlpha || c == '_' then some (p.takeWhile isWordC, p.dropWhile isWordC)
    else none

/-- Value of a digit string. -/
def digitsVal (ds : List Char) : Nat :=
  ds.foldl (fun a c => a * 10 + (c.toNat - '0'.toNat)) 0

/-- `parse_int10`: optional sign + decimal integer via `strtol(.,.,10)`,
which first skips whitespace; fails when no digits follow. -/
def parse_int10 (p : List Char) : Option (Int × List Char) :=
  let q := skipWs p
  let sr : Int × List Char :=
    match q with
    | '+' :: t => (1, t)
    | '-' :: t => (-1, t)
    | _ => (1, q)
  let ds := sr.2.takeWhile Char.isDigit
  if ds.isEmpty then none
  else some (sr.1 * (digitsVal ds : Int), sr.2.dropWhile Char.isDigit)

/-- `parse_register`: `rN` with `N` in `0..7`, followed by a non-alphanumeric
character (or the end of the string). -/
def parse_register (p : List Char) : Option (Nat × List Char) :=
  match p with
  | 'r' :: d :: rest =>
    if d.isDigit && !(match rest with | c :: _ => c.isAlphanum | [] => false) then
      if d.toNat - '0'.toNat ≤ 7 then some (d.toNat - '0'.toNat, rest) else none
    else none
  | _ => none

/-- Addressing modes.  `inv` is C's `ADR_INVALID`; the other four carry the
bitmask values `1,2,4,8` used for legality checks (see `modeMask`). -/
inductive AddrMode
  | inv | imm | dir | mat | reg
deriving DecidableEq, Repr

/-- Enum value of a mode as used in the legality bitmasks (`ADR_IMMEDIATE=1`,
`ADR_DIRECT=2`, `ADR_MATRIX=4`, `ADR_REGISTER=8`; `ADR_INVALID=0`). -/
def modeMask : AddrMode → Nat
  | .inv => 0 | .imm => 1 | .dir => 2 | .mat => 4 | .reg => 8

/-- `parse_operand`: classify one operand (`#imm`, `rX`, or a label).
Returns the mode, the label text (non-empty only for `dir`) and the rest.
The C version copies the label into a caller buffer of bounded size; the
truncation to the buffer size happens at the use sites (`truncTo`). -/
def parse_operand (p : List Char) : Option (AddrMode × List Char × List Char) :=
  match skipWs p with
  | '#' :: t =>
    match parse_int10 t with
    | some (_, e) => some (.imm, [], e)
    | none => none
  | q =>
    match parse_register q with
    | some (_, e) => some (.reg, [], e)
    | none =>
      match read_word q with
      | some (w, e) => some (.dir, w, e)
      | none => none

/-- Copy-with-truncation into a C buffer of capacity `cap`
(`if (n >= cap) n = cap - 1`). -/
def truncTo (cap : Nat) (w : List Char) : List Char :=
  if w.length ≥ cap then w.take (cap - 1) else w

/-- `rest_is_comment_or_ws`: only spaces or a `;` comment may remain. -/
def rest_is_comment_or_ws (p : List Char) : Bool :=
  match skipWs p with
  | [] => true
  | ';' :: _ => true
  | _ => false

/-- `read_mnemonic`: read the mnemonic (buffer capacity `cap`), returning it
with the rest of the line. -/
def read_mnemonic (cap : Nat) (p : List Char) : Option (List Char × List Char) :=
  match read_word (skipWs p) with
  | some (w, e) => some (truncTo cap w, e)
  | none => none

/-- `parse_comma`: consume one comma between operands (skipping spaces). -/
def parse_comma (p : List Char) : Option (List Char) :=
  match skipWs p with
  | ',' :: t => some t
  | _ => none

/-- `parse_matrix_suffix`: recognize `[rX][rY]`. -/
def parse_matrix_suffix (p : List Char) : Option (Nat × Nat × List Char) :=
  match skipWs p with
  | '[' :: t1 =>
    match parse_register (skipWs t1) with
    | some (row, t2) =>
      match skipWs t2 with
      | ']' :: t3 =>
        match skipWs t3 with
        | '[' :: t4 =>
          match parse_register (skipWs t4) with
          | some (col, t5) =>
            match skipWs t5 with
            | ']' :: t6 => some (row, col, t6)
            | _ => none
          | none => none
        | _ => none
      | _ => none
    | none => none
  | _ => none

/-! ## encoding.c: opcode table -/

structure OpSpec where
  name : List Char
  opcode : Nat
  argc : Nat
  src_ok : Nat
  dst_ok : Nat
deriving DecidableEq, Repr

/-- `AM_ALL = IMM|DIR|REG|MAT`. -/
def AM_ALL : Nat := 15
/-- `AM_NOIMM = DIR|REG|MAT`. -/
def AM_NOIMM : Nat := 14
/-- `AM_ONLYDIR = DIR|MAT`. -/
def AM_ONLYDIR : Nat := 6

/-- The 16-opcode table `OPS` of encoding.c. -/
def OPS : List OpSpec := [
  ⟨"mov".toList,   0, 2, AM_ALL,     AM_NOIMM⟩,
  ⟨"cmp".toList,   1, 2, AM_ALL,     AM_ALL⟩,
  ⟨"add".toList,   2, 2, AM_ALL,     AM_NOIMM⟩,
  ⟨"sub".toList,   3, 2, AM_ALL,     AM_NOIMM⟩,
  ⟨"lea".toList,   4, 2, AM_ONLYDIR, AM_NOIMM⟩,
  ⟨"clr".toList,   5, 1, 0,          AM_NOIMM⟩,
  ⟨"not".toList,   6, 1, 0,          AM_NOIMM⟩,
  ⟨"inc".toList,   7, 1, 0,          AM_NOIMM⟩,
  ⟨"dec".toList,   8, 1, 0,          AM_NOIMM⟩,
  ⟨"jmp".toList,   9, 1, 0,          AM_ONLYDIR⟩,
  ⟨"bne".toList,  10, 1, 0,          AM_ONLYDIR⟩,
  ⟨"red".toList,  11, 1, 0,          AM_NOIMM⟩,
  ⟨"prn".toList,  12, 1, 0,          AM_ALL⟩,
  ⟨"jsr".toList,  13, 1, 0,          AM_ONLYDIR⟩,
  ⟨"rts".toList,  14, 0, 0,          0⟩,
  ⟨"stop".toList, 15, 0, 0,          0⟩]

/-- `find_op`: look the mnemonic up in `OPS` (first match, as the C loop). -/
def find_op (m : List Char) : Option OpSpec :=
  OPS.find? (fun o => o.name == m)

/-- `spec->xxx_ok & mode` legality test. -/
def allowedIn (mask : Nat) (m : AddrMode) : Bool :=
  mask.land (modeMask m) != 0

/-- `words_for_mode`: extra words required by an addressing mode. -/
def words_for_mode : AddrMode → Nat
  | .reg => 1 | .imm => 1 | .dir => 1 | .mat => 2 | .inv => 0

/-! ## encoding.c: sizing (Pass 1) -/

structure EncodedInstrSize where
  words : Nat
  operands : Nat
deriving DecidableEq, Repr

/-- The `peek` check before the source operand: fail on `,`, end, or `;`. -/
def missing_src_operand (p : List Char) : Bool :=
  match skipWs p with
  | [] => true | ',' :: _ => true | ';' :: _ => true | _ => false

/-- The `peek` check before the destination operand: fail on end or `;`. -/
def missing_dst_operand (p : List Char) : Bool :=
  match skipWs p with
  | [] => true | ';' :: _ => true | _ => false

/-- DIRECT followed by `[rX][rY]` is upgraded to MATRIX (shared shape of the
upgrade blocks in `encoding_estimate_size`). -/
def upgrade_matrix (m : AddrMode) (e : List Char) : AddrMode × List Char :=
  match m, parse_matrix_suffix e with
  | .dir, some (_, _, e2) => (.mat, e2)
  | mm, _ => (mm, e)

/-- `encoding_estimate_size`: size an instruction line (errors become `none`).
Mirrors the three `argc` branches of encoding.c. -/
def encoding_estimate_size (instr : List Char) : Option EncodedInstrSize :=
  match read_mnemonic 32 instr with
  | none => none
  | some (mnem, p) =>
    match find_op mnem with
    | none => none
    | some spec =>
      if spec.argc = 2 then
        if missing_src_operand p then none else
        match parse_operand p with
        | none => none
        | some (src0, _, e0) =>
          match parse_comma (upgrade_matrix src0 e0).2 with
          | none => none
          | some e1 =>
            if missing_dst_operand e1 then none else
            match parse_operand e1 with
            | none => none
            | some (dst0, _, f0) =>
              if !(allowedIn spec.src_ok (upgrade_matrix src0 e0).1) then none
              else if !(allowedIn spec.dst_ok (upgrade_matrix dst0 f0).1) then none
              else if !(rest_is_comment_or_ws (upgrade_matrix dst0 f0).2) then none
              else if (upgrade_matrix src0 e0).1 = .reg ∧ (upgrade_matrix dst0 f0).1 = .reg then
                some ⟨2, 2⟩
              else
                some ⟨1 + (words_for_mode (upgrade_matrix src0 e0).1 +
                           words_for_mode (upgrade_matrix dst0 f0).1), 2⟩
      else if spec.argc = 1 then
        match parse_operand p with
        | none => none
        | some (dst0, _, f0) =>
          if !(allowedIn spec.dst_ok (upgrade_matrix dst0 f0).1) then none
          else if !(rest_is_comment_or_ws (upgrade_matrix dst0 f0).2) then none
          else some ⟨1 + words_for_mode (upgrade_matrix dst0 f0).1, 1⟩
      else
        if rest_is_comment_or_ws p then some ⟨1, 0⟩ else none

/-! ## encoding.c: full instruction parser (Pass 2) -/

/-- `ParsedInstr`: decoded instruction record (unused fields stay zero, modes
start as `ADR_INVALID`). -/
structure ParsedInstr where
  argc : Nat := 0
  opcode : Nat := 0
  src_mode : AddrMode := .inv
  dst_mode : AddrMode := .inv
  src_imm : Int := 0
  dst_imm : Int := 0
  src_sym : List Char := []
  dst_sym : List Char := []
  src_reg : Nat := 0
  dst_reg : Nat := 0
  src_mat_row : Nat := 0
  src_mat_col : Nat := 0
  dst_mat_row : Nat := 0
  dst_mat_col : Nat := 0
deriving DecidableEq, Repr

/-- Payload of one fully parsed operand. -/
structure OpPayload where
  mode : AddrMode := .inv
  imm : Int := 0
  reg : Nat := 0
  row : Nat := 0
  col : Nat := 0
  sym : List Char := []
  rest : List Char := []
deriving DecidableEq, Repr

/-- Source-operand payload block of `encoding_parse_instruction`: re-parse the
immediate from `skip_ws(op_start)+1` or the register from `skip_ws(op_start)`,
or upgrade DIRECT to MATRIX; `MAX_LABEL_LEN = 31` bounds the symbol buffer. -/
def src_payload (opStart : List Char) (m : AddrMode) (sym e : List Char) :
    Option OpPayload :=
  match m with
  | .imm =>
    match parse_int10 ((skipWs opStart).drop 1) with
    | none => none
    | some (v, _) => some { mode := .imm, imm := v, rest := e }
  | .reg =>
    match parse_register (skipWs opStart) with
    | none => none
    | some (r, _) => some { mode := .reg, reg := r, rest := e }
  | .dir =>
    match parse_matrix_suffix e with
    | some (row, col, e2) =>
      some { mode := .mat, row := row, col := col, sym := truncTo 31 sym, rest := e2 }
    | none => some { mode := .dir, sym := truncTo 31 sym, rest := e }
  | mm => some { mode := mm, sym := truncTo 31 sym, rest := e }

/-- Destination-operand payload block: as `src_payload` but the immediate case
first checks that `skip_ws(op_start)` is `#`. -/
def dst_payload (opStart : List Char) (m : AddrMode) (sym e : List Char) :
    Option OpPayload :=
  match m with
  | .imm =>
    match skipWs opStart with
    | '#' :: t =>
      match parse_int10 t with
      | none => none
      | some (v, _) => some { mode := .imm, imm := v, rest := e }
    | _ => none
  | .reg =>
    match parse_register (skipWs opStart) with
    | none => none
    | some (r, _) => some { mode := .reg, reg := r, rest := e }
  | .dir =>
    match parse_matrix_suffix e with
    | some (row, col, e2) =>
      some { mode := .mat, row := row, col := col, sym := truncTo 31 sym, rest := e2 }
    | none => some { mode := .dir, sym := truncTo 31 sym, rest := e }
  | mm => some { mode := mm, sym := truncTo 31 sym, rest := e }

/-- `encoding_parse_instruction`: full parse of one instruction line into a
`ParsedInstr` (errors become `none`). -/
def encoding_parse_instruction (line : List Char) : Option ParsedInstr :=
  match read_mnemonic 32 line with
  | none => none
  | some (mnem, p) =>
    match find_op mnem with
    | none => none
    | some spec =>
      if spec.argc = 2 then
        if missing_src_operand p then none else
        match parse_operand p with
        | none => none
        | some (src0, ssym, e0) =>
          match src_payload p src0 ssym e0 with
          | none => none
          | some sp =>
            match parse_comma sp.rest with
            | none => none
            | some e1 =>
              if missing_dst_operand e1 then none else
              match parse_operand e1 with
              | none => none
              | some (dst0, dsym, f0) =>
                match dst_payload e1 dst0 dsym f0 with
                | none => none
                | some dp =>
                  if !(allowedIn spec.src_ok sp.mode) then none
                  else if !(allowedIn spec.dst_ok dp.mode) then none
                  else if !(rest_is_comment_or_ws dp.rest) then none
                  else some { argc := 2, opcode := spec.opcode,
                              src_mode := sp.mode, dst_mode := dp.mode,
                              src_imm := sp.imm, dst_imm := dp.imm,
                              src_sym := sp.sym, dst_sym := dp.sym,
                              src_reg := sp.reg, dst_reg := dp.reg,
                              src_mat_row := sp.row, src_mat_col := sp.col,
                              dst_mat_row := dp.row, dst_mat_col := dp.col }
      else if spec.argc = 1 then
        match parse_operand p with
        | none => none
        | some (dst0, dsym, f0) =>
          match dst_payload p dst0 dsym f0 with
          | none => none
          | some dp =>
            if !(allowedIn spec.dst_ok dp.mode) then none
            else if !(rest_is_comment_or_ws dp.rest) then none
            else some { argc := 1, opcode := spec.opcode, dst_mode := dp.mode,
                        dst_imm := dp.imm, dst_sym := dp.sym, dst_reg := dp.reg,
                        dst_mat_row := dp.row, dst_mat_col := dp.col }
      else
        if rest_is_comment_or_ws p then some { argc := 0, opcode := spec.opcode }
        else none

/-- `strip_comment_inplace` kernel: kill a `;` comment, except inside a
double-quoted string (with `\"` and `\\` escapes). -/
def strip_comment_go : Bool → Bool → List Char → List Char
  | _, _, [] => []
  | in_str, esc, c :: t =>
    if in_str then
      if esc then c :: strip_comment_go true false t
      else if c = '\\' then c :: strip_comment_go true true t
      else if c = '\"' then c :: strip_comment_go false false t
      else c :: strip_comment_go true false t
    else
      if c = '\"' then c :: strip_comment_go true false t
      else if c = ';' then []
      else c :: strip_comment_go false false t

/-- `strip_comment_inplace`, as a function on the line. -/
def strip_comment (s : List Char) : List Char := strip_comment_go false false s

/-! ## isa.c: word packers (10-bit words as `Nat`) -/

/-- `isa_pack_are`: clear the low two bits, set the A/R/E field, mask to 10
bits (`& 0x3FF` is `% 1024`). -/
def isa_pack_are (w are2 : Nat) : Nat := ((w / 4) * 4 + are2 % 4) % 1024

/-- `isa_mode_code`: 2-bit field code of a mode in the first word. -/
def isa_mode_code : AddrMode → Nat
  | .imm => 0 | .dir => 1 | .mat => 2 | .reg => 3 | .inv => 0

/-- `isa_first_word`; `none` stands for the C argument `-1` (absent side). -/
def isa_first_word (opcode : Nat) (src dst : Option AddrMode) : Nat :=
  isa_pack_are
    ((opcode % 16) * 64 +
     (match src with | some m => (isa_mode_code m % 4) * 16 | none => 0) +
     (match dst with | some m => (isa_mode_code m % 4) * 4 | none => 0)) 0

/-- `isa_word_imm`: 8-bit payload (`(unsigned)v & 0xFF`), ARE=A. -/
def isa_word_imm (v : Int) : Nat := isa_pack_are ((v.emod 256).toNat * 4) 0

/-- `isa_word_reloc`: 8-bit payload, ARE=R. -/
def isa_word_reloc (v : Int) : Nat := isa_pack_are ((v.emod 256).toNat * 4) 2

/-- `isa_word_extern` of isa.c (renamed `isa_word_ext` here): ARE=E, zero
payload. -/
def isa_word_ext : Nat := isa_pack_are 0 1

/-- `isa_word_regs_pair`: src register in bits 9:6, dst in 5:2, ARE=A. -/
def isa_word_regs_pair (src_reg dst_reg : Nat) : Nat :=
  isa_pack_are ((src_reg % 16) * 64 + (dst_reg % 16) * 4) 0

/-- `isa_word_reg_src`. -/
def isa_word_reg_src (r : Nat) : Nat := isa_pack_are ((r % 16) * 64) 0

/-- `isa_word_reg_dst`. -/
def isa_word_reg_dst (r : Nat) : Nat := isa_pack_are ((r % 16) * 4) 0

/-! ## errors.c: diagnostics -/

/-- Diagnostics recorded by the embedded code paths (each constructor stands
for one `errors_addf` format string, with its arguments). -/
inductive Diag
  | cannotDefineExternal (line : Nat) (name : List Char) (prevLine : Nat)
  | duplicateLabel (line : Nat) (name : List Char) (prevLine : Nat)
  | entryAlsoExt (line : Nat) (name : List Char)
  | entryDeclaredExt (line : Nat) (name : List Char)
  | entryUndefined (line : Nat) (name : List Char)
  | out8Range (line : Nat) (what : String) (v : Int)
  | undefinedSymbol (line : Nat) (name : List Char)
  | parseErr (line : Nat)
deriving DecidableEq, Repr

/-! ## symbols.c: symbol table -/

/-- `SYM_CODE` flag. -/
def SYM_CODE : Nat := 1
/-- `SYM_DATA` flag. -/
def SYM_DATA : Nat := 2
/-- `SYM_EXTERN` flag of symbols.h (named `SYM_EXT` here). -/
def SYM_EXT : Nat := 4
/-- `SYM_ENTRY` flag. -/
def SYM_ENTRY : Nat := 8

structure Symbol where
  name : List Char
  value : Int
  attrs : Nat
  def_line : Nat
deriving DecidableEq, Repr

/-- `symbols_lookup` / `symbols_find_idx`: linear search, first match. -/
def symbols_lookup (t : List Symbol) (name : List Char) : Option Symbol :=
  t.find? (fun s => s.name == name)

/-- `symbols_is_external`. -/
def symbols_is_external (t : List Symbol) (name : List Char) : Bool :=
  match symbols_lookup t name with
  | some s => s.attrs.land SYM_EXT != 0
  | none => false

/-- Body of `symbols_define`: find the record (linear scan) and update or
reject; insert at the end if absent.  Returns (success, table, errors). -/
def symbols_define_go (name : List Char) (value : Int) (attrs : Nat)
    (def_line : Nat) : List Symbol → List Diag → Bool × List Symbol × List Diag
  | [], errs => (true, [⟨name, value, attrs, def_line⟩], errs)
  | s :: rest, errs =>
    if s.name == name then
      if s.attrs.land SYM_EXT ≠ 0 then
        (false, s :: rest, errs ++ [.cannotDefineExternal def_line name s.def_line])
      else if s.attrs.land (SYM_CODE + SYM_DATA) ≠ 0 then
        (false, s :: rest, errs ++ [.duplicateLabel def_line name s.def_line])
      else
        (true, { s with value := value,
                        attrs := s.attrs.lor (attrs.land (SYM_CODE + SYM_DATA + SYM_EXT)),
                        def_line := def_line } :: rest, errs)
    else
      let r := symbols_define_go name value attrs def_line rest errs
      (r.1, s :: r.2.1, r.2.2)

/-- `symbols_define`: define/declare a symbol (kind must be one of
CODE/DATA/EXTERN, else internal-misuse failure). -/
def symbols_define (t : List Symbol) (name : List Char) (value : Int)
    (attrs : Nat) (def_line : Nat) (errs : List Diag) :
    Bool × List Symbol × List Diag :=
  if attrs.land (SYM_CODE + SYM_DATA + SYM_EXT) = 0 then (false, t, errs)
  else symbols_define_go name value attrs def_line t errs

/-- Body of `symbols_mark_entry`. -/
def symbols_mark_entry_go (name : List Char) (line : Nat) :
    List Symbol → List Diag → Bool × List Symbol × List Diag
  | [], errs => (true, [⟨name, 0, SYM_ENTRY, 0⟩], errs)
  | s :: rest, errs =>
    if s.name == name then
      if s.attrs.land SYM_EXT ≠ 0 then
        (false, s :: rest, errs ++ [.entryAlsoExt line name])
      else
        (true, { s with attrs := s.attrs.lor SYM_ENTRY } :: rest, errs)
    else
      let r := symbols_mark_entry_go name line rest errs
      (r.1, s :: r.2.1, r.2.2)

/-- `symbols_mark_entry`: mark `.entry`, inserting a placeholder if unseen. -/
def symbols_mark_entry (t : List Symbol) (name : List Char) (line : Nat)
    (errs : List Diag) : Bool × List Symbol × List Diag :=
  symbols_mark_entry_go name line t errs

/-- `symbols_relocate_data`: add `ic_final` to every DATA symbol's value. -/
def symbols_relocate_data (t : List Symbol) (ic_final : Int) : List Symbol :=
  t.map (fun s => if s.attrs.land SYM_DATA ≠ 0 then { s with value := s.value + ic_final } else s)

/-! ## codeimg: the code image -/

/-- One image word with its source line, as in codeimg.h. -/
structure CodeWord where
  value : Int
  src_line : Nat
deriving DecidableEq, Repr

/-- Modelled from the spec: the translation unit codeimg.c in the repository
is a stale copy of encoding.c and lacks the image container itself; per
codeimg.h and the spec, an image is an append-only vector of tagged 10-bit
words and `codeimg_push_word` appends one word. -/
def codeimg_push_word (img : List CodeWord) (v : Int) (lineno : Nat) : List CodeWord :=
  img ++ [⟨v, lineno⟩]

/-! ## pass2.c -/

/-- One `.ext` row: symbol name and use-site address. -/
structure ExtUse where
  name : List Char
  addr : Nat
deriving DecidableEq, Repr

/-- Pass-2 result/state (`Pass2Result` plus the running IC of `pass2_run`).
`IC_INIT = IC_START = 100`. -/
structure Pass2State where
  code_final : List CodeWord := []
  ic : Nat := 100
  ext : List ExtUse := []
  ent : List (List Char × Int) := []
  errors : List Diag := []
  ok : Bool := true
deriving DecidableEq, Repr

/-- Normalized symbol info used by Pass 2 (`SymInfo`); `is_extern` is named
`is_ext` here. -/
structure SymInfo where
  is_ext : Bool
  defined : Bool
  value : Int
deriving DecidableEq, Repr

/-- `sym_info_lookup`. -/
def sym_info_lookup (table : List Symbol) (name : List Char) : Option SymInfo :=
  match symbols_lookup table name with
  | none => none
  | some s => some ⟨s.attrs.land SYM_EXT != 0, s.attrs.land (SYM_CODE + SYM_DATA) != 0, s.value⟩

/-- `ext_push`: append one external use row (OOM path omitted). -/
def ext_push (st : Pass2State) (name : List Char) (addr : Nat) : Pass2State :=
  { st with ext := st.ext ++ [⟨name, addr⟩] }

/-- `check_fit8`: record a diagnostic when an 8-bit payload is outside
`[-128, 255]` (the encoders mask anyway). -/
def check_fit8 (errs : List Diag) (lineno : Nat) (v : Int) (what : String) : List Diag :=
  if v < -128 ∨ v > 255 then errs ++ [.out8Range lineno what v] else errs

/-- `emit_symbol_operand`: emit one extra word for a DIRECT or MATRIX base
label; the IC increment happens with the push, keeping `.ext` addresses
exact. -/
def emit_symbol_operand (name : List Char) (lineno : Nat)
    (table : List Symbol) (st : Pass2State) : Pass2State :=
  match sym_info_lookup table name with
  | none =>
    { st with errors := st.errors ++ [.undefinedSymbol lineno name],
              code_final := codeimg_push_word st.code_final (isa_word_ext : Int) lineno,
              ic := st.ic + 1 }
  | some s =>
    if s.is_ext then
      let st1 := ext_push st name st.ic
      { st1 with code_final := codeimg_push_word st1.code_final (isa_word_ext : Int) lineno,
                 ic := st1.ic + 1 }
    else if s.defined then
      { st with errors := check_fit8 st.errors lineno s.value "address",
                code_final := codeimg_push_word st.code_final (isa_word_reloc s.value : Int) lineno,
                ic := st.ic + 1 }
    else
      { st with errors := st.errors ++ [.undefinedSymbol lineno name],
                code_final := codeimg_push_word st.code_final (isa_word_ext : Int) lineno,
                ic := st.ic + 1 }

/-- Optional-leading-label block of `line_should_encode`: when the text
starts with an identifier followed by `:`, skip past the colon and the
following whitespace. -/
def skip_label (p : List Char) : List Char :=
  match p with
  | c :: _ =>
    if c.isAlpha || c == '_' then
      match p.dropWhile isWordC with
      | ':' :: qt => qt.dropWhile isSpaceC
      | _ => p
    else p
  | [] => p

/-- `line_should_encode`: skip blank/comment lines, an optional leading
`label:`, and directive lines; return the instruction text. -/
def line_should_encode (line : List Char) : Option (List Char) :=
  match skipWs line with
  | [] => none
  | c :: t =>
    if c = ';' then none
    else
      match skip_label (c :: t) with
      | [] => none
      | d :: _ => if d = '.' ∨ d = ';' then none else some (skip_label (c :: t))

/-- Source-operand emission block of `encode_instruction_into`. -/
def emit_src_operand (pi : ParsedInstr) (lineno : Nat) (table : List Symbol)
    (st : Pass2State) : Pass2State :=
  match pi.src_mode with
  | .imm =>
    { st with errors := check_fit8 st.errors lineno pi.src_imm "immediate",
              code_final := codeimg_push_word st.code_final (isa_word_imm pi.src_imm : Int) lineno,
              ic := st.ic + 1 }
  | .reg =>
    { st with code_final := codeimg_push_word st.code_final (isa_word_reg_src pi.src_reg : Int) lineno,
              ic := st.ic + 1 }
  | .dir => emit_symbol_operand pi.src_sym lineno table st
  | .mat =>
    let st1 := emit_symbol_operand pi.src_sym lineno table st
    { st1 with code_final := codeimg_push_word st1.code_final
                 (isa_word_regs_pair pi.src_mat_row pi.src_mat_col : Int) lineno,
               ic := st1.ic + 1 }
  | .inv => st

/-- Destination-operand emission block of `encode_instruction_into`. -/
def emit_dst_operand (pi : ParsedInstr) (lineno : Nat) (table : List Symbol)
    (st : Pass2State) : Pass2State :=
  match pi.dst_mode with
  | .imm =>
    { st with errors := check_fit8 st.errors lineno pi.dst_imm "immediate",
              code_final := codeimg_push_word st.code_final (isa_word_imm pi.dst_imm : Int) lineno,
              ic := st.ic + 1 }
  | .reg =>
    { st with code_final := codeimg_push_word st.code_final (isa_word_reg_dst pi.dst_reg : Int) lineno,
              ic := st.ic + 1 }
  | .dir => emit_symbol_operand pi.dst_sym lineno table st
  | .mat =>
    let st1 := emit_symbol_operand pi.dst_sym lineno table st
    { st1 with code_final := codeimg_push_word st1.code_final
                 (isa_word_regs_pair pi.dst_mat_row pi.dst_mat_col : Int) lineno,
               ic := st1.ic + 1 }
  | .inv => st

/-- First word for a parsed instruction, as pushed by
`encode_instruction_into` (absent sides are passed as C `-1`). -/
def first_word_of (pi : ParsedInstr) : Nat :=
  isa_first_word pi.opcode
    (if pi.argc = 2 then some pi.src_mode else none)
    (if 1 ≤ pi.argc then some pi.dst_mode else none)

/-- Emission part of `encode_instruction_into` after a successful parse:
push the first word, then either the packed register pair or the extra
words of the source and destination sides. -/
def encode_parsed (pi : ParsedInstr) (lineno : Nat) (table : List Symbol)
    (st : Pass2State) : Pass2State :=
  let st1 := { st with
    code_final := codeimg_push_word st.code_final (first_word_of pi : Int) lineno,
    ic := st.ic + 1 }
  if pi.argc = 2 then
    if pi.src_mode = .reg ∧ pi.dst_mode = .reg then
      { st1 with
        code_final := codeimg_push_word st1.code_final
          (isa_word_regs_pair pi.src_reg pi.dst_reg : Int) lineno,
        ic := st1.ic + 1 }
    else
      emit_dst_operand pi lineno table (emit_src_operand pi lineno table st1)
  else if pi.argc = 1 then
    emit_dst_operand pi lineno table st1
  else
    st1

/-- `encode_instruction_into`: parse and encode one line, appending words to
the final code image.  Returns the C return value and the new state. -/
def encode_instruction_into (line : List Char) (lineno : Nat)
    (table : List Symbol) (st : Pass2State) : Bool × Pass2State :=
  match line_should_encode line with
  | none => (true, st)
  | some p =>
    match encoding_parse_instruction p with
    | none => (false, { st with ok := false, errors := st.errors ++ [.parseErr lineno] })
    | some pi => (true, encode_parsed pi lineno table st)

/-- The `fgets` loop of `pass2_run`: strip comments, encode each line. -/
def pass2_encode_lines (table : List Symbol) (lines : List (List Char))
    (st : Pass2State) (lineno : Nat) : Pass2State :=
  match lines with
  | [] => st
  | l :: rest =>
    pass2_encode_lines table rest
      (encode_instruction_into (strip_comment l) (lineno + 1) table st).2 (lineno + 1)

/-- `ent_collect_cb`/`collect_entries`: visit all symbols in insertion order
and collect `.ent` rows. -/
def collect_entries (table : List Symbol) (st : Pass2State) : Pass2State :=
  table.foldl (fun st sym =>
    if sym.attrs.land SYM_ENTRY = 0 then st
    else if sym.attrs.land SYM_EXT ≠ 0 then
      { st with errors := st.errors ++ [.entryDeclaredExt sym.def_line sym.name] }
    else if sym.attrs.land (SYM_CODE + SYM_DATA) = 0 then
      { st with errors := st.errors ++ [.entryUndefined sym.def_line sym.name] }
    else { st with ent := st.ent ++ [(sym.name, sym.value)] }) st

/-- `pass2_run` over an in-memory list of source lines (file I/O elided):
encode every line with the shared error aggregator, then collect entries. -/
def pass2_run (table : List Symbol) (lines : List (List Char)) : Pass2State :=
  collect_entries table (pass2_encode_lines table lines {} 0)

/-! ## Lemmas about the lexing primitives -/

theorem skipWs_cons_of_not {c : Char} (t : List Char) (h : isSpaceC c = false) :
    skipWs (c :: t) = c :: t := by
  simp [skipWs, List.dropWhile, h]

theorem skipWs_idem (p : List Char) : skipWs (skipWs p) = skipWs p := by
  induction p with
  | nil => rfl
  | cons c t ih =>
    by_cases h : isSpaceC c
    · simpa [skipWs, List.dropWhile, h] using ih
    · simp [skipWs, List.dropWhile, h]

/-- Every successful `parse_operand` yields one of the three primary modes. -/
theorem parse_operand_modes {p : List Char} {m : AddrMode} {s e : List Char}
    (h : parse_operand p = some (m, s, e)) : m = .imm ∨ m = .reg ∨ m = .dir := by
  unfold parse_operand at h
  split at h
  · split at h <;> simp_all
  · split at h
    · simp_all
    · split at h <;> simp_all

/-- An `imm` result of `parse_operand` comes from `#` followed by a parseable
integer (the re-parse done by `encoding_parse_instruction` succeeds). -/
theorem parse_operand_imm {p : List Char} {s e : List Char}
    (h : parse_operand p = some (.imm, s, e)) :
    ∃ t v, skipWs p = '#' :: t ∧ parse_int10 t = some (v, e) := by
  unfold parse_operand at h
  split at h
  · rename_i t heq
    split at h
    · rename_i v e' hint
      simp only [Option.some.injEq, Prod.mk.injEq] at h
      exact ⟨t, v, heq, by rw [hint, h.2.2]⟩
    · simp at h
  · split at h
    · simp_all
    · split at h <;> simp_all

/-- A `reg` result of `parse_operand` comes from `parse_register` on the
whitespace-skipped operand text. -/
theorem parse_operand_reg {p : List Char} {s e : List Char}
    (h : parse_operand p = some (.reg, s, e)) :
    ∃ r, parse_register (skipWs p) = some (r, e) := by
  unfold parse_operand at h
  split at h
  · split at h <;> simp_all
  · rename_i q _
    split at h
    · rename_i r e' hreg
      simp only [Option.some.injEq, Prod.mk.injEq] at h
      exact ⟨r, by rw [hreg, h.2.2]⟩
    · split at h <;> simp_all

/-- A `dir` result of `parse_operand` comes from `read_word`. -/
theorem parse_operand_dir {p : List Char} {s e : List Char}
    (h : parse_operand p = some (.dir, s, e)) :
    read_word (skipWs p) = some (s, e) := by
  unfold parse_operand at h
  split at h
  · split at h <;> simp_all
  · split at h
    · simp_all
    · split at h
      · rename_i w e' hw
        simp only [Option.some.injEq, Prod.mk.injEq] at h
        rw [hw, h.2.1, h.2.2]
      · simp at h

/-- After a successful `parse_operand`, the source payload block of the full
parser succeeds and agrees with the sizing function's matrix upgrade. -/
theorem src_payload_of_operand {p : List Char} {m : AddrMode} {s e : List Char}
    (h : parse_operand p = some (m, s, e)) :
    ∃ sp : OpPayload, src_payload p m s e = some sp ∧
      sp.mode = (upgrade_matrix m e).1 ∧ sp.rest = (upgrade_matrix m e).2 := by
  rcases parse_operand_modes h with hm | hm | hm <;> subst hm
  · obtain ⟨t, v, hq, hint⟩ := parse_operand_imm h
    refine ⟨{ mode := .imm, imm := v, rest := e }, ?_, rfl, rfl⟩
    simp [src_payload, hq, hint]
  · obtain ⟨r, hreg⟩ := parse_operand_reg h
    refine ⟨{ mode := .reg, reg := r, rest := e }, ?_, rfl, rfl⟩
    simp [src_payload, hreg]
  · rcases hms : parse_matrix_suffix e with _ | ⟨⟨row, col, e2⟩⟩
    · exact ⟨{ mode := .dir, sym := truncTo 31 s, rest := e },
        by simp [src_payload, hms], by simp [upgrade_matrix, hms], by simp [upgrade_matrix, hms]⟩
    · exact ⟨{ mode := .mat, row := row, col := col, sym := truncTo 31 s, rest := e2 },
        by simp [src_payload, hms], by simp [upgrade_matrix, hms], by simp [upgrade_matrix, hms]⟩

/-- As `src_payload_of_operand`, for the destination payload block. -/
theorem dst_payload_of_operand {p : List Char} {m : AddrMode} {s e : List Char}
    (h : parse_operand p = some (m, s, e)) :
    ∃ dp : OpPayload, dst_payload p m s e = some dp ∧
      dp.mode = (upgrade_matrix m e).1 ∧ dp.rest = (upgrade_matrix m e).2 := by
  rcases parse_operand_modes h with hm | hm | hm <;> subst hm
  · obtain ⟨t, v, hq, hint⟩ := parse_operand_imm h
    refine ⟨{ mode := .imm, imm := v, rest := e }, ?_, rfl, rfl⟩
    simp [dst_payload, hq, hint]
  · obtain ⟨r, hreg⟩ := parse_operand_reg h
    refine ⟨{ mode := .reg, reg := r, rest := e }, ?_, rfl, rfl⟩
    simp [dst_payload, hreg]
  · rcases hms : parse_matrix_suffix e with _ | ⟨⟨row, col, e2⟩⟩
    · exact ⟨{ mode := .dir, sym := truncTo 31 s, rest := e },
        by simp [dst_payload, hms], by simp [upgrade_matrix, hms], by simp [upgrade_matrix, hms]⟩
    · exact ⟨{ mode := .mat, row := row, col := col, sym := truncTo 31 s, rest := e2 },
        by simp [dst_payload, hms], by simp [upgrade_matrix, hms], by simp [upgrade_matrix, hms]⟩

/-- Word count of a parsed instruction, as pass 2 will emit it. -/
def instr_words (pi : ParsedInstr) : Nat :=
  if pi.argc = 2 then
    if pi.src_mode = .reg ∧ pi.dst_mode = .reg then 2
    else 1 + (words_for_mode pi.src_mode + words_for_mode pi.dst_mode)
  else if pi.argc = 1 then 1 + words_for_mode pi.dst_mode
  else 1

/-- Shared-parser agreement: every line accepted by the sizing function is
also accepted by the full parser, with the same operand count, and its parse
encodes to exactly the estimated number of words. -/
theorem estimate_parse {p : List Char} {sz : EncodedInstrSize}
    (h : encoding_estimate_size p = some sz) :
    ∃ pi : ParsedInstr, encoding_parse_instruction p = some pi ∧
      pi.argc = sz.operands ∧ instr_words pi = sz.words := by
  unfold encoding_estimate_size at h
  split at h
  · simp at h
  rename_i mnem p0 hmn
  split at h
  · simp at h
  rename_i spec hop
  split at h
  · -- argc = 2
    rename_i hargc2
    split at h
    · simp at h
    rename_i hmiss
    split at h
    · simp at h
    rename_i src0 ssym e0 hsrc
    split at h
    · simp at h
    rename_i e1 hcomma
    split at h
    · simp at h
    rename_i hmiss2
    split at h
    · simp at h
    rename_i dst0 dsym f0 hdst
    split at h
    · simp at h
    rename_i hok1
    split at h
    · simp at h
    rename_i hok2
    split at h
    · simp at h
    rename_i hok3
    obtain ⟨sp, hsp, hspm, hspr⟩ := src_payload_of_operand hsrc
    obtain ⟨dp, hdp, hdpm, hdpr⟩ := dst_payload_of_operand hdst
    split at h
    · rename_i hrr
      cases h
      refine ⟨{ argc := 2, opcode := spec.opcode,
                  src_mode := sp.mode, dst_mode := dp.mode,
                  src_imm := sp.imm, dst_imm := dp.imm,
                  src_sym := sp.sym, dst_sym := dp.sym,
                  src_reg := sp.reg, dst_reg := dp.reg,
                  src_mat_row := sp.row, src_mat_col := sp.col,
                  dst_mat_row := dp.row, dst_mat_col := dp.col }, ?_, rfl, ?_⟩
      · simp [encoding_parse_instruction, hmn, hop, hargc2, hmiss, hsrc, hsp,
              hspr, hcomma, hmiss2, hdst, hdp, hok1, hok2, hok3, hspm, hdpm, hdpr]
      · simp [instr_words, hspm, hdpm, hrr.1, hrr.2]
    · rename_i hrr
      cases h
      refine ⟨{ argc := 2, opcode := spec.opcode,
                  src_mode := sp.mode, dst_mode := dp.mode,
                  src_imm := sp.imm, dst_imm := dp.imm,
                  src_sym := sp.sym, dst_sym := dp.sym,
                  src_reg := sp.reg, dst_reg := dp.reg,
                  src_mat_row := sp.row, src_mat_col := sp.col,
                  dst_mat_row := dp.row, dst_mat_col := dp.col }, ?_, rfl, ?_⟩
      · simp [encoding_parse_instruction, hmn, hop, hargc2, hmiss, hsrc, hsp,
              hspr, hcomma, hmiss2, hdst, hdp, hok1, hok2, hok3, hspm, hdpm, hdpr]
      · simp [instr_words, hspm, hdpm, hrr]
  · split at h
    · -- argc = 1
      rename_i hargc1' hargc1
      split at h
      · simp at h
      rename_i dst0 dsym f0 hdst
      split at h
      · simp at h
      rename_i hok2
      split at h
      · simp at h
      rename_i hok3
      obtain ⟨dp, hdp, hdpm, hdpr⟩ := dst_payload_of_operand hdst
      cases h
      refine ⟨{ argc := 1, opcode := spec.opcode, dst_mode := dp.mode,
                  dst_imm := dp.imm, dst_sym := dp.sym, dst_reg := dp.reg,
                  dst_mat_row := dp.row, dst_mat_col := dp.col }, ?_, rfl, ?_⟩
      · simp [encoding_parse_instruction, hmn, hop, hargc1', hargc1, hdst, hdp,
              hok2, hok3, hdpm, hdpr]
      · simp [instr_words, hdpm]
    · -- argc = 0
      rename_i hargc2' hargc1'
      split at h
      · rename_i hrest
        cases h
        refine ⟨{ argc := 0, opcode := spec.opcode }, ?_, rfl, ?_⟩
        · simp [encoding_parse_instruction, hmn, hop, hargc2', hargc1', hrest]
        · simp [instr_words]
      · simp at h

/-! ## Pass 2 does not skip an accepted instruction: `line_should_encode` -/

theorem parse_register_colon (t : List Char) : parse_register (':' :: t) = none := by
  unfold parse_register
  split
  · rename_i heq
    simp at heq
  · rfl

theorem read_word_colon (t : List Char) : read_word (':' :: t) = none := by
  simp [read_word]

theorem parse_operand_colon (t : List Char) : parse_operand (':' :: t) = none := by
  unfold parse_operand
  rw [skipWs_cons_of_not t (by decide)]
  split
  · rename_i heq
    simp at heq
  · rw [parse_register_colon, read_word_colon]

theorem rest_is_comment_or_ws_colon (t : List Char) :
    rest_is_comment_or_ws (':' :: t) = false := by
  unfold rest_is_comment_or_ws
  rw [skipWs_cons_of_not t (by decide)]
  split
  · rename_i heq
    simp at heq
  · rename_i heq
    simp at heq
  · rfl

/-- An accepted instruction starts with a known mnemonic, and the text after
the mnemonic never starts with `:` (so pass 2 cannot mistake the mnemonic for
a label). -/
theorem estimate_shape {p : List Char} {sz : EncodedInstrSize}
    (h : encoding_estimate_size p = some sz) :
    ∃ mnem p0 spec, read_mnemonic 32 p = some (mnem, p0) ∧ find_op mnem = some spec ∧
      ∀ qt, p0 ≠ ':' :: qt := by
  unfold encoding_estimate_size at h
  split at h
  · simp at h
  rename_i mnem p0 hmn
  split at h
  · simp at h
  rename_i spec hop
  refine ⟨mnem, p0, spec, hmn, hop, ?_⟩
  intro qt hqt
  subst hqt
  split at h
  · split at h
    · simp at h
    split at h
    · simp at h
    · rename_i hsrc
      rw [parse_operand_colon] at hsrc
      exact Option.noConfusion hsrc
  · split at h
    · split at h
      · simp at h
      · rename_i hdst
        rw [parse_operand_colon] at hdst
        exact Option.noConfusion hdst
    · split at h
      · rename_i hrest
        rw [rest_is_comment_or_ws_colon] at hrest
        exact Bool.noConfusion hrest
      · simp at h

theorem find_op_name {m : List Char} {spec : OpSpec} (h : find_op m = some spec) :
    spec.name = m := by
  unfold find_op at h
  have h2 := List.find?_some h
  exact eq_of_beq (by simpa using h2)

theorem find_op_mem {m : List Char} {spec : OpSpec} (h : find_op m = some spec) :
    spec ∈ OPS :=
  List.mem_of_find?_eq_some h

theorem OPS_names_alpha : ∀ o ∈ OPS, o.name.headI.isAlpha = true := by decide

theorem truncTo_cons_headI (cap : Nat) (c : Char) (l : List Char) (hc : 1 ≤ cap) :
    (truncTo (cap + 1) (c :: l)).headI = c := by
  unfold truncTo
  split
  · cases cap with
    | zero => omega
    | succ n => simp [List.take]
  · rfl

/-- On any line accepted by the sizing function, `line_should_encode` passes
through, returning the whitespace-trimmed line. -/
theorem lse_of_estimate {p : List Char} {sz : EncodedInstrSize}
    (h : encoding_estimate_size p = some sz) :
    line_should_encode p = some (skipWs p) := by
  obtain ⟨mnem, p0, spec, hmn, hop, hcol⟩ := estimate_shape h
  unfold read_mnemonic at hmn
  split at hmn
  case h_2 => exact Option.noConfusion hmn
  rename_i w e hw
  have hmnem : truncTo 32 w = mnem := by
    simpa using congrArg (fun x => x.1) (Option.some.inj hmn)
  have hp0 : e = p0 := by
    simpa using congrArg (fun x => x.2) (Option.some.inj hmn)
  unfold read_word at hw
  split at hw
  case h_1 => exact Option.noConfusion hw
  rename_i q c rest heq
  rw [heq] at hw
  split at hw
  case isFalse => exact Option.noConfusion hw
  rename_i hcw
  have hwdef : (c :: rest).takeWhile isWordC = w := by
    simpa using congrArg (fun x => x.1) (Option.some.inj hw)
  have hedef : (c :: rest).dropWhile isWordC = e := by
    simpa using congrArg (fun x => x.2) (Option.some.inj hw)
  have hwordc : isWordC c = true := by
    rcases (Bool.or_eq_true _ _).mp hcw with h1 | h1
    · simp [isWordC, Char.isAlphanum, h1]
    · simp [isWordC, h1]
  have hwcons : w = c :: rest.takeWhile isWordC := by
    rw [← hwdef, List.takeWhile_cons, hwordc]
    simp
  have hcalpha : c.isAlpha = true := by
    have hh := OPS_names_alpha spec (find_op_mem hop)
    rw [find_op_name hop, ← hmnem, hwcons] at hh
    rwa [truncTo_cons_headI 31 c _ (by omega)] at hh
  have hcnotsemi : ¬(c = ';') := by
    intro hc
    rw [hc] at hcalpha
    simp at hcalpha
  have hcnotdot : ¬(c = '.') := by
    intro hc
    rw [hc] at hcalpha
    simp at hcalpha
  have hdrop : (c :: rest).dropWhile isWordC = p0 := by rw [hedef, hp0]
  have hskip : skip_label (c :: rest) = c :: rest := by
    simp only [skip_label, hcw, if_true, hdrop]
  unfold line_should_encode
  rw [heq]
  simp [hskip, hcnotsemi, hcnotdot]

/-! ## Word-count lemmas for the pass-2 emitter -/

theorem read_mnemonic_skipWs (cap : Nat) (l : List Char) :
    read_mnemonic cap (skipWs l) = read_mnemonic cap l := by
  unfold read_mnemonic
  rw [skipWs_idem]

theorem parse_instruction_skipWs (l : List Char) :
    encoding_parse_instruction (skipWs l) = encoding_parse_instruction l := by
  unfold encoding_parse_instruction
  rw [read_mnemonic_skipWs]

/-- `emit_symbol_operand` always appends exactly one word and bumps the IC
once, whatever the lookup finds. -/
theorem emit_symbol_operand_len (name : List Char) (lineno : Nat)
    (table : List Symbol) (st : Pass2State) :
    (emit_symbol_operand name lineno table st).code_final.length
      = st.code_final.length + 1 ∧
    (emit_symbol_operand name lineno table st).ic = st.ic + 1 := by
  unfold emit_symbol_operand
  split
  · simp [codeimg_push_word]
  · split
    · simp [ext_push, codeimg_push_word]
    split
    · simp [codeimg_push_word]
    · simp [codeimg_push_word]

theorem emit_src_operand_len (pi : ParsedInstr) (lineno : Nat)
    (table : List Symbol) (st : Pass2State) :
    (emit_src_operand pi lineno table st).code_final.length
      = st.code_final.length + words_for_mode pi.src_mode := by
  unfold emit_src_operand
  split <;> simp_all [codeimg_push_word, words_for_mode, emit_symbol_operand_len]

theorem emit_dst_operand_len (pi : ParsedInstr) (lineno : Nat)
    (table : List Symbol) (st : Pass2State) :
    (emit_dst_operand pi lineno table st).code_final.length
      = st.code_final.length + words_for_mode pi.dst_mode := by
  unfold emit_dst_operand
  split <;> simp_all [codeimg_push_word, words_for_mode, emit_symbol_operand_len]

/-- `encode_parsed` appends exactly `instr_words pi` words. -/
theorem encode_parsed_len (pi : ParsedInstr) (lineno : Nat)
    (table : List Symbol) (st : Pass2State) :
    (encode_parsed pi lineno table st).code_final.length
      = st.code_final.length + instr_words pi := by
  unfold encode_parsed instr_words
  by_cases h2 : pi.argc = 2
  · by_cases hrr : pi.src_mode = .reg ∧ pi.dst_mode = .reg
    · simp [h2, hrr, codeimg_push_word]
    · simp only [if_pos h2, if_neg hrr]
      rw [emit_dst_operand_len, emit_src_operand_len]
      simp [codeimg_push_word]
      omega
  · by_cases h1 : pi.argc = 1
    · simp only [if_neg h2, if_pos h1]
      rw [emit_dst_operand_len]
      simp [codeimg_push_word]
      omega
    · simp [h2, h1, codeimg_push_word]

/-- C1: Size/emit parity.  Every instruction line accepted by the sizing
function `encoding_estimate_size` is encoded by pass 2's
`encode_instruction_into` without error, appending exactly `sz.words` words
to the final code image, for any symbol table and any starting state; hence
the placeholder words pass 1 reserves per line equal the words pass 2 emits
for that line, and the totals agree. -/
theorem size_emit_parity (p : List Char) (sz : EncodedInstrSize) (lineno : Nat)
    (table : List Symbol) (st : Pass2State)
    (h : encoding_estimate_size p = some sz) :
    (encode_instruction_into p lineno table st).1 = true ∧
    (encode_instruction_into p lineno table st).2.code_final.length
      = st.code_final.length + sz.words := by
  obtain ⟨pi, hpi, hargc, hwords⟩ := estimate_parse h
  have hlse := lse_of_estimate h
  have hpi' : encoding_parse_instruction (skipWs p) = some pi := by
    rw [parse_instruction_skipWs]
    exact hpi
  unfold encode_instruction_into
  rw [hlse]
  simp only [hpi']
  constructor
  · simp
  · rw [encode_parsed_len, hwords]

/-- Witness for C1 at the concrete accepted line `mov r3, r5`
(sized to 2 words; pass 2 emits 2 words). -/
theorem size_emit_parity_witness :
    encoding_estimate_size "mov r3, r5".toList = some ⟨2, 2⟩ ∧
    (encode_instruction_into "mov r3, r5".toList 1 [] {}).1 = true ∧
    (encode_instruction_into "mov r3, r5".toList 1 [] {}).2.code_final.length
      = ({} : Pass2State).code_final.length + 2 :=
  ⟨by decide, size_emit_parity "mov r3, r5".toList ⟨2, 2⟩ 1 [] {} (by decide)⟩

/-! ## Extern address exactness: pass-2 invariant -/

/-- Invariant tying the IC, the final code image, and the externs list:
the IC always equals `IC_START + |code|`, and every recorded extern use
points at the extern-typed word of the image emitted for it. -/
def ext_inv (table : List Symbol) (st : Pass2State) : Prop :=
  st.ic = 100 + st.code_final.length ∧
  ∀ r ∈ st.ext, 100 ≤ r.addr ∧
    (st.code_final[r.addr - 100]?).map CodeWord.value = some ((isa_word_ext : Nat) : Int) ∧
    symbols_is_external table r.name = true

/-- Appending one word while bumping the IC (externs list unchanged)
preserves the invariant. -/
theorem ext_inv_step {table : List Symbol} {st st' : Pass2State} {w : CodeWord}
    (h : ext_inv table st)
    (hcode : st'.code_final = st.code_final ++ [w])
    (hic : st'.ic = st.ic + 1) (hext : st'.ext = st.ext) : ext_inv table st' := by
  obtain ⟨hic0, hrec⟩ := h
  refine ⟨by rw [hic, hcode, hic0]; simp only [List.length_append, List.length_singleton]; omega, ?_⟩
  intro r hr
  rw [hext] at hr
  obtain ⟨h1, h2, h3⟩ := hrec r hr
  refine ⟨h1, ?_, h3⟩
  obtain ⟨cw0, hcw0, hval⟩ := Option.map_eq_some'.mp h2
  have hlt : r.addr - 100 < st.code_final.length := (List.getElem?_eq_some.mp hcw0).1
  rw [hcode, List.getElem?_append_left hlt]
  exact h2

/-- Recording an extern use at the current IC and then appending the extern
word preserves the invariant. -/
theorem ext_inv_ext_step {table : List Symbol} {st st' : Pass2State}
    {name : List Char} {n : Nat} (h : ext_inv table st)
    (hx : symbols_is_external table name = true)
    (hcode : st'.code_final = st.code_final ++ [⟨(isa_word_ext : Nat), n⟩])
    (hic : st'.ic = st.ic + 1)
    (hext : st'.ext = st.ext ++ [⟨name, st.ic⟩]) : ext_inv table st' := by
  obtain ⟨hic0, hrec⟩ := h
  refine ⟨by rw [hic, hcode, hic0]; simp only [List.length_append, List.length_singleton]; omega, ?_⟩
  intro r hr
  rw [hext, List.mem_append] at hr
  rcases hr with hr | hr
  · obtain ⟨h1, h2, h3⟩ := hrec r hr
    refine ⟨h1, ?_, h3⟩
    obtain ⟨cw0, hcw0, hval⟩ := Option.map_eq_some'.mp h2
    have hlt : r.addr - 100 < st.code_final.length := (List.getElem?_eq_some.mp hcw0).1
    rw [hcode, List.getElem?_append_left hlt]
    exact h2
  · simp only [List.mem_singleton] at hr
    subst hr
    refine ⟨?_, ?_, hx⟩
    · show (100 : Nat) ≤ st.ic
      omega
    · have hidx : (⟨name, st.ic⟩ : ExtUse).addr - 100 = st.code_final.length := by
        show st.ic - 100 = st.code_final.length
        omega
      rw [hcode, hidx, List.getElem?_concat_length]
      rfl

theorem sym_info_is_ext {table : List Symbol} {name : List Char} {s : SymInfo}
    (h : sym_info_lookup table name = some s) (hx : s.is_ext = true) :
    symbols_is_external table name = true := by
  unfold sym_info_lookup at h
  unfold symbols_is_external
  split at h
  · exact Option.noConfusion h
  · rename_i s0 hs0
    rw [hs0]
    cases Option.some.inj h
    exact hx

theorem emit_symbol_operand_inv {table : List Symbol} {st : Pass2State}
    (name : List Char) (ln : Nat) (h : ext_inv table st) :
    ext_inv table (emit_symbol_operand name ln table st) := by
  unfold emit_symbol_operand
  split
  · exact ext_inv_step (w := ⟨(isa_word_ext : Int), ln⟩) h
      (by simp [codeimg_push_word]) rfl rfl
  · rename_i s hs
    split
    · rename_i hx
      exact ext_inv_ext_step (n := ln) h (sym_info_is_ext hs hx)
        (by simp [ext_push, codeimg_push_word]) rfl (by simp [ext_push])
    split
    · exact ext_inv_step (w := ⟨(isa_word_reloc s.value : Int), ln⟩) h
        (by simp [codeimg_push_word]) rfl rfl
    · exact ext_inv_step (w := ⟨(isa_word_ext : Int), ln⟩) h
        (by simp [codeimg_push_word]) rfl rfl

theorem emit_src_operand_inv {table : List Symbol} {st : Pass2State}
    (pi : ParsedInstr) (ln : Nat) (h : ext_inv table st) :
    ext_inv table (emit_src_operand pi ln table st) := by
  unfold emit_src_operand
  split
  · exact ext_inv_step (w := ⟨(isa_word_imm pi.src_imm : Int), ln⟩) h
      (by simp [codeimg_push_word]) rfl rfl
  · exact ext_inv_step (w := ⟨(isa_word_reg_src pi.src_reg : Int), ln⟩) h
      (by simp [codeimg_push_word]) rfl rfl
  · exact emit_symbol_operand_inv _ ln h
  · exact ext_inv_step (w := ⟨(isa_word_regs_pair pi.src_mat_row pi.src_mat_col : Int), ln⟩)
      (emit_symbol_operand_inv _ ln h) (by simp [codeimg_push_word]) rfl rfl
  · exact h

theorem emit_dst_operand_inv {table : List Symbol} {st : Pass2State}
    (pi : ParsedInstr) (ln : Nat) (h : ext_inv table st) :
    ext_inv table (emit_dst_operand pi ln table st) := by
  unfold emit_dst_operand
  split
  · exact ext_inv_step (w := ⟨(isa_word_imm pi.dst_imm : Int), ln⟩) h
      (by simp [codeimg_push_word]) rfl rfl
  · exact ext_inv_step (w := ⟨(isa_word_reg_dst pi.dst_reg : Int), ln⟩) h
      (by simp [codeimg_push_word]) rfl rfl
  · exact emit_symbol_operand_inv _ ln h
  · exact ext_inv_step (w := ⟨(isa_word_regs_pair pi.dst_mat_row pi.dst_mat_col : Int), ln⟩)
      (emit_symbol_operand_inv _ ln h) (by simp [codeimg_push_word]) rfl rfl
  · exact h

theorem encode_parsed_inv {table : List Symbol} {st : Pass2State}
    (pi : ParsedInstr) (ln : Nat) (h : ext_inv table st) :
    ext_inv table (encode_parsed pi ln table st) := by
  unfold encode_parsed
  have h1 : ext_inv table { st with
      code_final := codeimg_push_word st.code_final (first_word_of pi : Int) ln,
      ic := st.ic + 1 } :=
    ext_inv_step (w := ⟨(first_word_of pi : Int), ln⟩) h (by simp [codeimg_push_word]) rfl rfl
  by_cases h2 : pi.argc = 2
  · by_cases hrr : pi.src_mode = .reg ∧ pi.dst_mode = .reg
    · simp only [if_pos h2, if_pos hrr]
      exact ext_inv_step (w := ⟨(isa_word_regs_pair pi.src_reg pi.dst_reg : Int), ln⟩) h1
        (by simp [codeimg_push_word]) rfl rfl
    · simp only [if_pos h2, if_neg hrr]
      exact emit_dst_operand_inv pi ln (emit_src_operand_inv pi ln h1)
  · by_cases hone : pi.argc = 1
    · simp only [if_neg h2, if_pos hone]
      exact emit_dst_operand_inv pi ln h1
    · simp only [if_neg h2, if_neg hone]
      exact h1

theorem encode_instruction_into_inv {table : List Symbol} {st : Pass2State}
    (line : List Char) (ln : Nat) (h : ext_inv table st) :
    ext_inv table (encode_instruction_into line ln table st).2 := by
  unfold encode_instruction_into
  split
  · exact h
  · split
    · exact ⟨h.1, h.2⟩
    · exact encode_parsed_inv _ ln h

theorem pass2_encode_lines_inv {table : List Symbol} (lines : List (List Char))
    (st : Pass2State) (ln : Nat) (h : ext_inv table st) :
    ext_inv table (pass2_encode_lines table lines st ln) := by
  induction lines generalizing st ln with
  | nil => exact h
  | cons l rest ih =>
    exact ih _ _ (encode_instruction_into_inv _ _ h)

theorem collect_entries_inv {table0 table : List Symbol} (st : Pass2State)
    (h : ext_inv table0 st) : ext_inv table0 (collect_entries table st) := by
  unfold collect_entries
  induction table generalizing st with
  | nil => exact h
  | cons sym rest ih =>
    rw [List.foldl_cons]
    apply ih
    split
    · exact h
    split
    · exact ⟨h.1, h.2⟩
    split
    · exact ⟨h.1, h.2⟩
    · exact ⟨h.1, h.2⟩

/-- C2: Extern address exactness.  For every record `(name, addr)` in the
externs list produced by `pass2_run`, `addr` is at least `IC_START = 100`,
the `addr`-th word of the final code image (counting from 100) is the
extern-typed word `isa_word_ext` emitted for that use, and `name` is an
extern-typed symbol of the pass-1 table. -/
theorem extern_address_exact (table : List Symbol) (lines : List (List Char)) :
    ∀ r ∈ (pass2_run table lines).ext,
      100 ≤ r.addr ∧
      ((pass2_run table lines).code_final[r.addr - 100]?).map CodeWord.value
        = some ((isa_word_ext : Nat) : Int) ∧
      symbols_is_external table r.name = true := by
  have h0 : ext_inv table {} := ⟨rfl, by intro r hr; simp at hr⟩
  exact (collect_entries_inv _ (pass2_encode_lines_inv lines {} 0 h0)).2

/-- Witness for C2: assembling `mov X, r2` against a table declaring `X`
extern records the use `(X, 101)`, and word 101 of the image is the extern
word. -/
theorem extern_address_exact_witness :
    (⟨"X".toList, 101⟩ : ExtUse) ∈
      (pass2_run [⟨"X".toList, 0, SYM_EXT, 1⟩] ["mov X, r2".toList]).ext ∧
    100 ≤ (101 : Nat) ∧
    ((pass2_run [⟨"X".toList, 0, SYM_EXT, 1⟩] ["mov X, r2".toList]).code_final[101 - 100]?).map
        CodeWord.value = some ((isa_word_ext : Nat) : Int) ∧
    symbols_is_external [⟨"X".toList, 0, SYM_EXT, 1⟩] "X".toList = true :=
  ⟨by decide,
   extern_address_exact [⟨"X".toList, 0, SYM_EXT, 1⟩] ["mov X, r2".toList]
     ⟨"X".toList, 101⟩ (by decide)⟩

/-! ## C7: data relocation -/

/-- C7: Data relocation frame effect.  `symbols_relocate_data t icf` keeps
the table length and, at every index, keeps the name, the attribute flags
and the definition line, adding `icf` to the value exactly when the symbol
carries the DATA flag (and leaving every other value unchanged).  Pass 1
invokes it once, with the final instruction counter, at end of pass
(pass1.c:344), so each DATA symbol's final value is its DC offset plus
ICF. -/
theorem relocate_data_effect (t : List Symbol) (icf : Int) (i : Nat) :
    (symbols_relocate_data t icf).length = t.length ∧
    (symbols_relocate_data t icf)[i]? = (t[i]?).map (fun s =>
      { s with value := s.value + (if s.attrs.land SYM_DATA ≠ 0 then icf else 0) }) := by
  constructor
  · simp [symbols_relocate_data]
  · unfold symbols_relocate_data
    rw [List.getElem?_map]
    rcases t[i]? with _ | s
    · rfl
    · simp only [Option.map_some']
      by_cases hd : s.attrs.land SYM_DATA ≠ 0
    -- both branches reduce to the same record
      · rw [if_pos hd, if_pos hd]
      · rw [if_neg hd, if_neg hd]
        simp

/-! ## C9: rN with N outside 0..7 is a label, not an error -/

/-- C9: An operand token `rN` with digit `N` outside `0..7` (`r8`, `r9`) is
rejected by `parse_register` but is not a parse error: `parse_operand`
classifies it as a DIRECT (label) operand whose symbol text is the token
itself, and a full instruction parse carries it as a direct symbol operand
(to be resolved against the symbol table like any other label). -/
theorem reg_out_of_range_is_label (c : Char) (h : c = '8' ∨ c = '9') :
    parse_register ['r', c] = none ∧
    parse_operand ['r', c] = some (.dir, ['r', c], []) ∧
    encoding_parse_instruction ('m' :: 'o' :: 'v' :: ' ' :: 'r' :: c :: ',' :: ' ' :: 'r' :: '2' :: []) =
      some { argc := 2, opcode := 0, src_mode := .dir, dst_mode := .reg,
             src_sym := ['r', c], dst_reg := 2 } := by
  rcases h with h | h <;> subst h <;> exact ⟨by decide, by decide, by decide⟩

/-- Witness for C9 at the token `r8`. -/
theorem reg_out_of_range_is_label_witness :
    (('8' : Char) = '8' ∨ ('8' : Char) = '9') ∧
    parse_register ['r', '8'] = none ∧
    parse_operand ['r', '8'] = some (.dir, ['r', '8'], []) ∧
    encoding_parse_instruction ('m' :: 'o' :: 'v' :: ' ' :: 'r' :: '8' :: ',' :: ' ' :: 'r' :: '2' :: []) =
      some { argc := 2, opcode := 0, src_mode := .dir, dst_mode := .reg,
             src_sym := ['r', '8'], dst_reg := 2 } :=
  ⟨Or.inl rfl, reg_out_of_range_is_label '8' (Or.inl rfl)⟩

/-! ## C10: 8-bit range check on symbol addresses -/

/-- C10: For every locally defined (non-extern) symbol operand, pass 2 emits
the relocatable word with the symbol's address masked to 8 bits
(`isa_word_reloc` packs `value mod 256` with ARE=R), after running the same
8-bit range check used for immediates: whenever the address lies outside
`[-128, 255]` the diagnostic `address value out of 8-bit range` is appended
to the shared error aggregator, and otherwise no diagnostic is added. -/
theorem addr_range_check (name : List Char) (lineno : Nat) (table : List Symbol)
    (st : Pass2State) (s : SymInfo)
    (hl : sym_info_lookup table name = some s) (he : s.is_ext = false)
    (hd : s.defined = true) :
    emit_symbol_operand name lineno table st =
      { st with errors := check_fit8 st.errors lineno s.value "address",
                code_final := st.code_final ++ [⟨(isa_word_reloc s.value : Int), lineno⟩],
                ic := st.ic + 1 } ∧
    isa_word_reloc s.value = (s.value.emod 256).toNat * 4 + 2 ∧
    ((s.value < -128 ∨ s.value > 255) →
      check_fit8 st.errors lineno s.value "address"
        = st.errors ++ [.out8Range lineno "address" s.value]) ∧
    (¬(s.value < -128 ∨ s.value > 255) →
      check_fit8 st.errors lineno s.value "address" = st.errors) := by
  refine ⟨?_, ?_, ?_, ?_⟩
  · unfold emit_symbol_operand
    rw [hl]
    simp [he, hd, codeimg_push_word]
  · unfold isa_word_reloc isa_pack_are
    have h3 : 0 ≤ s.value.emod 256 := Int.emod_nonneg _ (by norm_num)
    have h2 : s.value.emod 256 < 256 := Int.emod_lt_of_pos _ (by norm_num)
    have h1 : (s.value.emod 256).toNat < 256 := by omega
    omega
  · intro hout
    unfold check_fit8
    rw [if_pos hout]
  · intro hout
    unfold check_fit8
    rw [if_neg hout]

/-- Witness for C10: symbol `A` defined at address 300 (outside the 8-bit
range) is emitted masked, with the range diagnostic recorded. -/
theorem addr_range_check_witness :
    sym_info_lookup [⟨"A".toList, 300, SYM_CODE, 1⟩] "A".toList
      = some ⟨false, true, 300⟩ ∧
    (emit_symbol_operand "A".toList 7 [⟨"A".toList, 300, SYM_CODE, 1⟩] {} =
      { ({} : Pass2State) with
          errors := check_fit8 ({} : Pass2State).errors 7 (300 : Int) "address",
          code_final := ({} : Pass2State).code_final ++ [⟨(isa_word_reloc 300 : Int), 7⟩],
          ic := ({} : Pass2State).ic + 1 } ∧
     isa_word_reloc 300 = ((300 : Int).emod 256).toNat * 4 + 2 ∧
     (((300 : Int) < -128 ∨ (300 : Int) > 255) →
       check_fit8 ({} : Pass2State).errors 7 (300 : Int) "address"
         = ({} : Pass2State).errors ++ [.out8Range 7 "address" 300]) ∧
     (¬((300 : Int) < -128 ∨ (300 : Int) > 255) →
       check_fit8 ({} : Pass2State).errors 7 (300 : Int) "address"
         = ({} : Pass2State).errors)) :=
  ⟨by decide,
   addr_range_check "A".toList 7 [⟨"A".toList, 300, SYM_CODE, 1⟩] {}
     ⟨false, true, 300⟩ (by decide) rfl rfl⟩

/-! ## C6: the symbols_define contract -/

/-- Replace the first record named `name` (the one `symbols_find_idx`
finds) using `f`; other records untouched. -/
def update_first (name : List Char) (f : Symbol → Symbol) : List Symbol → List Symbol
  | [] => []
  | s :: rest => if s.name == name then f s :: rest else s :: update_first name f rest

theorem symbols_define_go_absent (name : List Char) (v : Int) (kind : Nat) (line : Nat) :
    ∀ (t : List Symbol) (errs : List Diag), symbols_lookup t name = none →
      symbols_define_go name v kind line t errs = (true, t ++ [⟨name, v, kind, line⟩], errs) := by
  intro t
  induction t with
  | nil => intro errs _; rfl
  | cons s0 rest ih =>
    intro errs hl
    unfold symbols_lookup at hl
    rw [List.find?_cons] at hl
    split at hl
    · exact Option.noConfusion hl
    · rename_i hne
      have hne' : (s0.name == name) = false := by
        revert hne
        cases s0.name == name <;> simp
      simp only [symbols_define_go, hne', Bool.false_eq_true, if_false]
      rw [ih errs hl]
      rfl

theorem symbols_define_go_found (name : List Char) (v : Int) (kind : Nat) (line : Nat) :
    ∀ (t : List Symbol) (errs : List Diag) (s : Symbol),
      symbols_lookup t name = some s →
      ((s.attrs.land SYM_EXT ≠ 0 →
        symbols_define_go name v kind line t errs
          = (false, t, errs ++ [.cannotDefineExternal line name s.def_line])) ∧
       (s.attrs.land SYM_EXT = 0 → s.attrs.land (SYM_CODE + SYM_DATA) ≠ 0 →
        symbols_define_go name v kind line t errs
          = (false, t, errs ++ [.duplicateLabel line name s.def_line])) ∧
       (s.attrs.land SYM_EXT = 0 → s.attrs.land (SYM_CODE + SYM_DATA) = 0 →
        symbols_define_go name v kind line t errs
          = (true, update_first name (fun s0 =>
              { s0 with value := v,
                        attrs := s0.attrs.lor (kind.land (SYM_CODE + SYM_DATA + SYM_EXT)),
                        def_line := line }) t, errs))) := by
  intro t
  induction t with
  | nil => intro errs s hl; exact Option.noConfusion hl
  | cons s0 rest ih =>
    intro errs s hl
    unfold symbols_lookup at hl
    rw [List.find?_cons] at hl
    split at hl
    · rename_i heq
      cases Option.some.inj hl
      refine ⟨?_, ?_, ?_⟩
      · intro hext
        simp only [symbols_define_go, heq, if_true]
        rw [if_pos hext]
      · intro hext hdup
        simp only [symbols_define_go, heq, if_true]
        rw [if_neg (by simpa using hext), if_pos hdup]
      · intro hext hdup
        simp only [symbols_define_go, heq, if_true, update_first]
        rw [if_neg (by simpa using hext), if_neg (by simpa using hdup)]
    · rename_i hne
      have hne' : (s0.name == name) = false := by
        revert hne
        cases s0.name == name <;> simp
      obtain ⟨ih1, ih2, ih3⟩ := ih errs s hl
      refine ⟨?_, ?_, ?_⟩
      · intro hext
        simp only [symbols_define_go, hne', Bool.false_eq_true, if_false]
        rw [ih1 hext]
      · intro hext hdup
        simp only [symbols_define_go, hne', Bool.false_eq_true, if_false]
        rw [ih2 hext hdup]
      · intro hext hdup
        simp only [symbols_define_go, hne', Bool.false_eq_true, if_false,
                   update_first]
        rw [ih3 hext hdup]

/-- C6: `symbols_define` contract, for `kind ∈ {CODE, DATA, EXTERN}` and any
table state: an absent name is inserted with flags `kind`; a name present
with only the ENTRY flag gets `kind` added to its flags and its value (and
definition line) set; a name present with EXTERN fails with the
`cannot define external` diagnostic (citing the extern's line); a name
present with CODE or DATA fails with the `duplicate label` diagnostic
citing the prior definition line.  In both failure cases the table — and in
particular the existing record — is returned unchanged. -/
theorem symbols_define_contract (t : List Symbol) (name : List Char) (v : Int)
    (kind : Nat) (line : Nat) (errs : List Diag)
    (hk : kind = SYM_CODE ∨ kind = SYM_DATA ∨ kind = SYM_EXT) :
    (symbols_lookup t name = none →
      symbols_define t name v kind line errs = (true, t ++ [⟨name, v, kind, line⟩], errs)) ∧
    (∀ s, symbols_lookup t name = some s → s.attrs = SYM_ENTRY →
      symbols_define t name v kind line errs
        = (true, update_first name (fun s0 =>
            { s0 with value := v, attrs := s0.attrs.lor kind, def_line := line }) t, errs)) ∧
    (∀ s, symbols_lookup t name = some s → s.attrs.land SYM_EXT ≠ 0 →
      symbols_define t name v kind line errs
        = (false, t, errs ++ [.cannotDefineExternal line name s.def_line])) ∧
    (∀ s, symbols_lookup t name = some s → s.attrs.land SYM_EXT = 0 →
        s.attrs.land (SYM_CODE + SYM_DATA) ≠ 0 →
      symbols_define t name v kind line errs
        = (false, t, errs ++ [.duplicateLabel line name s.def_line])) := by
  have hmask : kind.land (SYM_CODE + SYM_DATA + SYM_EXT) = kind := by
    rcases hk with h | h | h <;> subst h <;> decide
  have hguard : ¬(kind.land (SYM_CODE + SYM_DATA + SYM_EXT) = 0) := by
    rcases hk with h | h | h <;> subst h <;> decide
  refine ⟨?_, ?_, ?_, ?_⟩
  · intro hl
    unfold symbols_define
    rw [if_neg hguard]
    exact symbols_define_go_absent name v kind line t errs hl
  · intro s hl hs
    unfold symbols_define
    rw [if_neg hguard]
    rw [(symbols_define_go_found name v kind line t errs s hl).2.2
      (by rw [hs]; decide) (by rw [hs]; decide), hmask]
  · intro s hl hext
    unfold symbols_define
    rw [if_neg hguard]
    exact (symbols_define_go_found name v kind line t errs s hl).1 hext
  · intro s hl hext hdup
    unfold symbols_define
    rw [if_neg hguard]
    exact (symbols_define_go_found name v kind line t errs s hl).2.1 hext hdup

/-- Witness for C6: defining `A` as DATA over a table where `A` is already a
CODE label fails with the duplicate-label diagnostic and leaves the table
unchanged. -/
theorem symbols_define_contract_witness :
    (SYM_DATA = SYM_CODE ∨ SYM_DATA = SYM_DATA ∨ SYM_DATA = SYM_EXT) ∧
    symbols_lookup [⟨"A".toList, 100, SYM_CODE, 3⟩] "A".toList
      = some ⟨"A".toList, 100, SYM_CODE, 3⟩ ∧
    (⟨"A".toList, 100, SYM_CODE, 3⟩ : Symbol).attrs.land SYM_EXT = 0 ∧
    (⟨"A".toList, 100, SYM_CODE, 3⟩ : Symbol).attrs.land (SYM_CODE + SYM_DATA) ≠ 0 ∧
    symbols_define [⟨"A".toList, 100, SYM_CODE, 3⟩] "A".toList 5 SYM_DATA 9 []
      = (false, [⟨"A".toList, 100, SYM_CODE, 3⟩],
         [] ++ [.duplicateLabel 9 "A".toList 3]) :=
  ⟨Or.inr (Or.inl rfl), by decide, by decide, by decide,
   (symbols_define_contract [⟨"A".toList, 100, SYM_CODE, 3⟩] "A".toList 5 SYM_DATA 9 []
      (Or.inr (Or.inl rfl))).2.2.2 ⟨"A".toList, 100, SYM_CODE, 3⟩
      (by decide) (by decide) (by decide)⟩

/-! ## C4: EXTERN/ENTRY exclusivity -/

/-- One symbol-table operation of pass 1. -/
inductive SymOp
  | define (name : List Char) (value : Int) (attrs : Nat) (line : Nat)
  | markEntry (name : List Char) (line : Nat)
deriving DecidableEq, Repr

/-- Apply one operation to a table (diagnostics discarded). -/
def sym_apply (t : List Symbol) : SymOp → List Symbol
  | .define n v a l => (symbols_define t n v a l []).2.1
  | .markEntry n l => (symbols_mark_entry t n l []).2.1

/-- Run a sequence of operations from the empty table. -/
def sym_run (ops : List SymOp) : List Symbol := ops.foldl sym_apply []

/-- `name` is present carrying ENTRY but no defining kind and no EXTERN
(the placeholder `symbols_mark_entry` leaves behind). -/
def entry_only_present (t : List Symbol) (name : List Char) : Bool :=
  match symbols_lookup t name with
  | some s => s.attrs.land (SYM_CODE + SYM_DATA + SYM_EXT) == 0 &&
              s.attrs.land SYM_ENTRY != 0
  | none => false

/-- Guard of the amended claim: defines use a kind in {CODE, DATA, EXTERN},
and a define with kind EXTERN is never applied to an ENTRY-only
placeholder. -/
def op_guard (t : List Symbol) : SymOp → Bool
  | .define n _ a _ =>
    (a == SYM_CODE || a == SYM_DATA || a == SYM_EXT) &&
    !(a == SYM_EXT && entry_only_present t n)
  | .markEntry _ _ => true

/-- Every operation of the sequence satisfies the guard at its point of
application. -/
def good_run : List Symbol → List SymOp → Bool
  | _, [] => true
  | t, op :: rest => op_guard t op && good_run (sym_apply t op) rest

/-- Attribute words reachable in the table: bounded, and never both EXTERN
and ENTRY. -/
def attrs_ok (a : Nat) : Prop :=
  a < 16 ∧ (a.land SYM_EXT = 0 ∨ a.land SYM_ENTRY = 0)

def table_ok (t : List Symbol) : Prop := ∀ s ∈ t, attrs_ok s.attrs

theorem lor1_land4 {a : Nat} (ha : a < 16) : (a.lor 1).land 4 = a.land 4 := by
  interval_cases a <;> decide

theorem lor2_land4 {a : Nat} (ha : a < 16) : (a.lor 2).land 4 = a.land 4 := by
  interval_cases a <;> decide

theorem lor4_land8 {a : Nat} (ha : a < 16) : (a.lor 4).land 8 = a.land 8 := by
  interval_cases a <;> decide

theorem lor8_land4 {a : Nat} (ha : a < 16) : (a.lor 8).land 4 = a.land 4 := by
  interval_cases a <;> decide

theorem lor_flag_lt16 {a : Nat} (ha : a < 16) {k : Nat}
    (hk : k = 1 ∨ k = 2 ∨ k = 4 ∨ k = 8) : a.lor k < 16 := by
  rcases hk with h | h | h | h <;> subst h <;> interval_cases a <;> decide

theorem land3_land4_land7 {a : Nat} (ha : a < 16) (h3 : a.land 3 = 0)
    (h4 : a.land 4 = 0) : a.land 7 = 0 := by
  revert h3 h4
  interval_cases a <;> decide

theorem mark_entry_go_ok (name : List Char) (line : Nat) :
    ∀ (t : List Symbol) (errs : List Diag), table_ok t →
      table_ok (symbols_mark_entry_go name line t errs).2.1 := by
  intro t
  induction t with
  | nil =>
    intro errs _ s hs
    simp only [symbols_mark_entry_go, List.mem_singleton] at hs
    subst hs
    refine ⟨?_, Or.inl ?_⟩
    · show SYM_ENTRY < 16
      decide
    · show SYM_ENTRY.land SYM_EXT = 0
      decide
  | cons s0 rest ih =>
    intro errs hI
    unfold symbols_mark_entry_go
    split
    · rename_i hname
      split
      · exact hI
      · rename_i hext
        intro s hs
        rcases List.mem_cons.mp hs with hs | hs
        · subst hs
          obtain ⟨hlt, _⟩ := hI s0 (List.mem_cons_self s0 rest)
          refine ⟨?_, Or.inl ?_⟩
          · show s0.attrs.lor 8 < 16
            exact lor_flag_lt16 hlt (by omega)
          · show (s0.attrs.lor 8).land 4 = 0
            rw [lor8_land4 hlt]
            simpa [SYM_EXT] using hext
        · exact hI s (List.mem_cons_of_mem s0 hs)
    · rename_i hname
      intro s hs
      rcases List.mem_cons.mp hs with hs | hs
      · subst hs
        exact hI s (List.mem_cons_self s rest)
      · exact ih errs (fun x hx => hI x (List.mem_cons_of_mem s0 hx)) s hs

theorem define_go_ok (name : List Char) (v : Int) (kind line : Nat)
    (hkind : kind = SYM_CODE ∨ kind = SYM_DATA ∨ kind = SYM_EXT) :
    ∀ (t : List Symbol) (errs : List Diag), table_ok t →
      (kind = SYM_EXT → entry_only_present t name = false) →
      table_ok (symbols_define_go name v kind line t errs).2.1 := by
  intro t
  induction t with
  | nil =>
    intro errs _ _ s hs
    simp only [symbols_define_go, List.mem_singleton] at hs
    subst hs
    rcases hkind with h | h | h <;> subst h
    · exact ⟨by show SYM_CODE < 16; decide, Or.inl (by show SYM_CODE.land SYM_EXT = 0; decide)⟩
    · exact ⟨by show SYM_DATA < 16; decide, Or.inl (by show SYM_DATA.land SYM_EXT = 0; decide)⟩
    · exact ⟨by show SYM_EXT < 16; decide, Or.inr (by show SYM_EXT.land SYM_ENTRY = 0; decide)⟩
  | cons s0 rest ih =>
    intro errs hI hg
    unfold symbols_define_go
    split
    · rename_i hname
      split
      · exact hI
      split
      · exact hI
      · rename_i hext hdup
        intro s hs
        rcases List.mem_cons.mp hs with hs | hs
        · subst hs
          obtain ⟨hlt, hdisj⟩ := hI s0 (List.mem_cons_self s0 rest)
          have hlook : symbols_lookup (s0 :: rest) name = some s0 := by
            unfold symbols_lookup
            exact List.find?_cons_of_pos _ hname
          have h4 : s0.attrs.land 4 = 0 := by simpa [SYM_EXT] using hext
          have h3 : s0.attrs.land 3 = 0 := by simpa [SYM_CODE, SYM_DATA] using hdup
          rcases hkind with h | h | h <;> subst h
          · refine ⟨?_, Or.inl ?_⟩
            · show s0.attrs.lor ((1 : Nat).land 7) < 16
              exact lor_flag_lt16 hlt (by decide)
            · show (s0.attrs.lor ((1 : Nat).land 7)).land 4 = 0
              rw [show ((1 : Nat).land 7) = 1 by decide, lor1_land4 hlt]
              exact h4
          · refine ⟨?_, Or.inl ?_⟩
            · show s0.attrs.lor ((2 : Nat).land 7) < 16
              exact lor_flag_lt16 hlt (by decide)
            · show (s0.attrs.lor ((2 : Nat).land 7)).land 4 = 0
              rw [show ((2 : Nat).land 7) = 2 by decide, lor2_land4 hlt]
              exact h4
          · -- kind = EXTERN on a record without kinds: the guard forbids ENTRY
            have hgu := hg rfl
            unfold entry_only_present at hgu
            rw [hlook] at hgu
            have h7 : s0.attrs.land (SYM_CODE + SYM_DATA + SYM_EXT) = 0 := by
              show s0.attrs.land 7 = 0
              exact land3_land4_land7 hlt h3 h4
            have h8 : s0.attrs.land SYM_ENTRY = 0 := by
              by_contra h8
              simp [h7, h8] at hgu
            refine ⟨?_, Or.inr ?_⟩
            · show s0.attrs.lor ((4 : Nat).land 7) < 16
              exact lor_flag_lt16 hlt (by decide)
            · show (s0.attrs.lor ((4 : Nat).land 7)).land 8 = 0
              rw [show ((4 : Nat).land 7) = 4 by decide, lor4_land8 hlt]
              exact h8
        · exact hI s (List.mem_cons_of_mem s0 hs)
    · rename_i hname
      have hg' : kind = SYM_EXT → entry_only_present rest name = false := by
        intro hk
        have h2 := hg hk
        have hname' : (s0.name == name) = false := by
          revert hname
          cases s0.name == name <;> simp
        unfold entry_only_present symbols_lookup at h2 ⊢
        rw [List.find?_cons_of_neg _ (by simp [hname'])] at h2
        exact h2
      intro s hs
      rcases List.mem_cons.mp hs with hs | hs
      · subst hs
        exact hI s (List.mem_cons_self s rest)
      · exact ih errs (fun x hx => hI x (List.mem_cons_of_mem s0 hx)) hg' s hs

theorem sym_apply_ok {t : List Symbol} (op : SymOp) (hI : table_ok t)
    (hg : op_guard t op = true) : table_ok (sym_apply t op) := by
  cases op with
  | markEntry n l =>
    show table_ok (symbols_mark_entry t n l []).2.1
    exact mark_entry_go_ok n l t [] hI
  | define n v a l =>
    unfold op_guard at hg
    rw [Bool.and_eq_true] at hg
    obtain ⟨hk, hng⟩ := hg
    have hkind : a = SYM_CODE ∨ a = SYM_DATA ∨ a = SYM_EXT := by
      rcases Bool.or_eq_true _ _ |>.mp hk with h | h
      · rcases Bool.or_eq_true _ _ |>.mp h with h | h
        · exact Or.inl (eq_of_beq h)
        · exact Or.inr (Or.inl (eq_of_beq h))
      · exact Or.inr (Or.inr (eq_of_beq h))
    have hguard : a = SYM_EXT → entry_only_present t n = false := by
      intro ha
      subst ha
      simp only [Bool.not_eq_true'] at hng
      rw [Bool.and_eq_false_iff] at hng
      rcases hng with h | h
      · simp at h
      · exact h
    show table_ok (symbols_define t n v a l []).2.1
    unfold symbols_define
    split
    · exact hI
    · exact define_go_ok n v a l hkind t [] hI hguard

theorem good_run_ok : ∀ (ops : List SymOp) (t : List Symbol), table_ok t →
    good_run t ops = true → table_ok (ops.foldl sym_apply t) := by
  intro ops
  induction ops with
  | nil => intro t hI _; exact hI
  | cons op rest ih =>
    intro t hI hg
    unfold good_run at hg
    rw [Bool.and_eq_true] at hg
    exact ih _ (sym_apply_ok op hI hg.1) hg.2

/-- C4 counterexample: the claim as stated is false.  Marking `X` as `.entry`
and then defining it `.extern` (a `.entry X` line followed by `.extern X`)
leaves `X` with both the EXTERN and the ENTRY flag set. -/
theorem extern_entry_exclusive_cex :
    ¬ (∀ s ∈ sym_run [SymOp.markEntry "X".toList 1,
                      SymOp.define "X".toList 0 SYM_EXT 2],
        s.attrs.land SYM_EXT = 0 ∨ s.attrs.land SYM_ENTRY = 0) := by
  decide

/-- C4 (amended): for every sequence of `symbols_define` (with kind in
{CODE, DATA, EXTERN}) and `symbols_mark_entry` operations, in any order,
starting from the empty table, in which no define with kind EXTERN is
applied to a name currently holding only the ENTRY flag, no symbol ever has
both the EXTERN and the ENTRY flag set.  (The excluded case —
`symbols_mark_entry` followed by `symbols_define(..., EXTERN, ...)` on the
same name — does set both flags; pass 2's entry collection reports it as an
error.) -/
theorem extern_entry_exclusive_amended (ops : List SymOp)
    (h : good_run [] ops = true) :
    ∀ s ∈ sym_run ops, s.attrs.land SYM_EXT = 0 ∨ s.attrs.land SYM_ENTRY = 0 := by
  intro s hs
  exact (good_run_ok ops [] (by intro x hx; simp at hx) h s hs).2

/-- Witness for the amended C4: defining `A` as CODE and then marking it
entry keeps the flags exclusive. -/
theorem extern_entry_exclusive_amended_witness :
    good_run [] [SymOp.define "A".toList 5 SYM_CODE 1,
                 SymOp.markEntry "A".toList 2] = true ∧
    ∀ s ∈ sym_run [SymOp.define "A".toList 5 SYM_CODE 1,
                   SymOp.markEntry "A".toList 2],
      s.attrs.land SYM_EXT = 0 ∨ s.attrs.land SYM_ENTRY = 0 :=
  ⟨by decide,
   extern_entry_exclusive_amended
     [SymOp.define "A".toList 5 SYM_CODE 1, SymOp.markEntry "A".toList 2]
     (by decide)⟩

/-! ## C8: reg-reg packing -/

/-- C8: Reg-reg packing.  For every two-operand instruction line whose source
and destination modes are both REGISTER, the sizing function returns exactly
2 words, and pass 2 emits exactly two words: the first word followed by the
single packed register-pair word (not three words). -/
theorem reg_reg_packing (p : List Char) (sz : EncodedInstrSize) (pi : ParsedInstr)
    (lineno : Nat) (table : List Symbol) (st : Pass2State)
    (h : encoding_estimate_size p = some sz)
    (hp : encoding_parse_instruction p = some pi)
    (h2 : pi.argc = 2) (hs : pi.src_mode = .reg) (hd : pi.dst_mode = .reg) :
    sz.words = 2 ∧
    (encode_instruction_into p lineno table st).2.code_final =
      st.code_final ++
        [⟨(isa_first_word pi.opcode (some AddrMode.reg) (some AddrMode.reg) : Int), lineno⟩,
         ⟨(isa_word_regs_pair pi.src_reg pi.dst_reg : Int), lineno⟩] := by
  obtain ⟨pi', hpi', hargc, hwords⟩ := estimate_parse h
  rw [hp] at hpi'
  cases Option.some.inj hpi'
  constructor
  · rw [← hwords]
    simp [instr_words, h2, hs, hd]
  · have hlse := lse_of_estimate h
    have hpw : encoding_parse_instruction (skipWs p) = some pi := by
      rw [parse_instruction_skipWs]
      exact hp
    unfold encode_instruction_into
    rw [hlse]
    simp only [hpw]
    unfold encode_parsed first_word_of
    simp [h2, hs, hd, codeimg_push_word]

/-- Witness for C8 at the concrete line `mov r3, r5`. -/
theorem reg_reg_packing_witness :
    encoding_estimate_size "mov r3, r5".toList = some ⟨2, 2⟩ ∧
    encoding_parse_instruction "mov r3, r5".toList =
      some { argc := 2, opcode := 0, src_mode := .reg, dst_mode := .reg,
             src_reg := 3, dst_reg := 5 } ∧
    (2 : Nat) = 2 ∧
    (encode_instruction_into "mov r3, r5".toList 1 [] {}).2.code_final =
      ({} : Pass2State).code_final ++
        [⟨(isa_first_word 0 (some AddrMode.reg) (some AddrMode.reg) : Int), 1⟩,
         ⟨(isa_word_regs_pair 3 5 : Int), 1⟩] :=
  ⟨by decide, by decide,
   (reg_reg_packing "mov r3, r5".toList ⟨2, 2⟩
      { argc := 2, opcode := 0, src_mode := .reg, dst_mode := .reg,
        src_reg := 3, dst_reg := 5 } 1 [] {}
      (by decide) (by decide) rfl rfl rfl).1,
   (reg_reg_packing "mov r3, r5".toList ⟨2, 2⟩
      { argc := 2, opcode := 0, src_mode := .reg, dst_mode := .reg,
        src_reg := 3, dst_reg := 5 } 1 [] {}
      (by decide) (by decide) rfl rfl rfl).2⟩

/-! ## C3: assembler.c stage-2 artifact gating -/

/-- Which artifact files the driver writes for a source file. -/
structure Artifacts where
  ob : Bool
  ent : Bool
  ext : Bool
deriving DecidableEq, Repr

/-- `pass2_free`: release the `.ext`/`.ent` arrays and clear the ok flag
(the error aggregator is borrowed from pass 1 and kept). -/
def pass2_free (p2 : Pass2State) : Pass2State :=
  { p2 with ext := [], ent := [], ok := false }

/-- Stage-2 tail of `assemble_file` (assembler.c:85-106), modelled with its
literal control flow: the failure branch prints the diagnostics and frees
the pass-2 result, but contains no `return`/`goto`, so control falls
through to the writers; `.ob` is then written unconditionally, and
`.ext`/`.ent` are written only when the corresponding (already freed) lists
are non-empty. -/
def assemble_stage2_artifacts (p2 : Pass2State) : Artifacts :=
  let p2f := if !p2.ok || p2.errors.length > 0 then pass2_free p2 else p2
  { ob := true,
    ext := decide (p2f.ext.length > 0),
    ent := decide (p2f.ent.length > 0) }

/-- C3 (code bug): on the entry-on-undefined program of spec Scenario E
(`.entry NOPE` / `stop`), pass 2 records an error, yet the stage-2 control
flow of `assemble_file` still produces the `.ob` artifact: its failure
branch (whose own comment reads "on failure, DO NOT emit any files") does
not return, and execution falls through into the writer calls. -/
theorem artifact_gating_bug :
    (pass2_run [⟨"NOPE".toList, 0, SYM_ENTRY, 0⟩]
        [".entry NOPE".toList, "stop".toList]).errors.length > 0 ∧
    (assemble_stage2_artifacts
        (pass2_run [⟨"NOPE".toList, 0, SYM_ENTRY, 0⟩]
          [".entry NOPE".toList, "stop".toList])).ob = true := by
  constructor
  · decide
  · decide

/-! ## C5: preassembler blank/comment lines -/

/-- Right-trim of the in-place truncation `*end = '\0'` (trailing
whitespace removed from the content part). -/
def rtrimWs (l : List Char) : List Char := (l.reverse.dropWhile isSpaceC).reverse

/-- The local `reserved_words` list of preassembler.c (no `.mat`). -/
def pre_reserved : List (List Char) :=
  ["mov", "cmp", "add", "sub", "not", "clr", "lea", "inc", "dec",
   "jmp", "bne", "red", "prn", "jsr", "rts", "stop",
   ".data", ".string", ".entry", ".extern"].map String.toList

def is_reserved_word (sl : List Char) : Bool := pre_reserved.any (fun w => w == sl)

/-- The local `is_valid_macro_name` of preassembler.c (renamed): starts with
a letter, length at most `MAX_LABEL_LEN = 31`, letters/digits/underscore. -/
def is_valid_mcro_name (sl : List Char) : Bool :=
  match sl with
  | c :: _ => c.isAlpha && decide (sl.length ≤ 31) &&
              sl.all (fun d => d.isAlphanum || d == '_')
  | [] => false

/-- Preprocessor state: OUTSIDE (`in_mcro = false`) or INSIDE_MACRO with the
current name and accumulating body buffer, plus the macro table, the output
lines, and the error flag. -/
structure PreState where
  in_mcro : Bool := false
  mcro_name : List Char := []
  mcro_buf : List Char := []
  mcros : List (List Char × List Char) := []
  out : List (List Char) := []
  err : Bool := false
deriving DecidableEq, Repr

/-- `macro_lookup`. -/
def mcro_lookup (ms : List (List Char × List Char)) (nm : List Char) :
    Option (List Char) :=
  match ms.find? (fun q => q.1 == nm) with
  | some q => some q.2
  | none => none

/-- `macro_define` (renamed): enforces name uniqueness; returns the extended
table or fails on a duplicate. -/
def mcro_define (ms : List (List Char × List Char)) (nm body : List Char) :
    Option (List (List Char × List Char)) :=
  if (ms.find? (fun q => q.1 == nm)).isSome then none else some (ms ++ [(nm, body)])

/-- One iteration of the `fgets` loop of `preassemble` (the C loop breaks on
error; this is modelled by the error-flag guard).  A line carries its
trailing newline when the source had one, as with `fgets`. -/
def pre_step (st : PreState) (ln : List Char) : PreState :=
  if st.err then st
  else if ln.length > 80 ∧ ln[80]? ≠ some '\n' then { st with err := true }
  else
    let lead := ln.takeWhile isSpaceC
    let trimmed := rtrimWs (ln.dropWhile isSpaceC)
    if trimmed = [] ∨ trimmed.head? = some ';' then
      { st with out := st.out ++ [lead ++ trimmed] }
    else if trimmed.take 4 = "mcro".toList ∧ ((trimmed[4]?).map isSpaceC).getD false then
      if st.in_mcro then { st with err := true }
      else
        let pafter := (trimmed.drop 4).dropWhile isSpaceC
        if pafter = [] then { st with err := true }
        else
          let nm := pafter.takeWhile (fun d => ¬ isSpaceC d)
          if nm.length > 31 then { st with err := true }
          else if is_reserved_word nm || ¬ is_valid_mcro_name nm then { st with err := true }
          else { st with in_mcro := true, mcro_name := nm, mcro_buf := [] }
    else if trimmed = "mcroend".toList then
      if ¬ st.in_mcro then { st with err := true }
      else
        match mcro_define st.mcros st.mcro_name st.mcro_buf with
        | none => { st with err := true }
        | some ms => { st with mcros := ms, in_mcro := false, mcro_buf := [] }
    else if st.in_mcro then
      { st with mcro_buf := st.mcro_buf ++ trimmed ++ ['\n'] }
    else
      match mcro_lookup st.mcros trimmed with
      | some body => { st with out := st.out ++ [body] }
      | none =>
        { st with out := st.out ++
            [(lead ++ trimmed) ++
              (if (lead ++ trimmed).getLast? = some '\n' then [] else ['\n'])] }

/-- The whole preprocessor over an in-memory file: fold the loop, flag an
unclosed macro at EOF, and remove the output artifact on any error. -/
def preassemble (lines : List (List Char)) : Option (List (List Char)) :=
  let st := lines.foldl pre_step {}
  let st := if st.in_mcro ∧ st.err = false then { st with err := true } else st
  if st.err then none else some st.out

/-- C5 counterexample: the claim as stated is false.  After `mcro m` the
preprocessor is in the INSIDE_MACRO state, yet a blank input line is
written to the output (it is not discarded; the macro body is indeed left
untouched). -/
theorem pre_blank_in_mcro_cex :
    (pre_step {} "mcro m\n".toList).in_mcro = true ∧
    (pre_step (pre_step {} "mcro m\n".toList) "\n".toList).out
      = (pre_step {} "mcro m\n".toList).out ++ ["\n".toList] ∧
    (pre_step (pre_step {} "mcro m\n".toList) "\n".toList).mcro_buf
      = (pre_step {} "mcro m\n".toList).mcro_buf := by
  refine ⟨by decide, by decide, by decide⟩

/-- C5 (amended): for every blank or comment-only input line (of legal
length, in a non-failed state), the preprocessor writes the line to the
output regardless of state — verbatim for blank lines, with trailing
whitespace (including the newline) cut for comment lines by the in-place
trim — and everything else, in particular the INSIDE_MACRO body buffer and
the state, is unchanged; the line is never added to the macro body. -/
theorem pre_blank_comment_line (st : PreState) (ln : List Char)
    (hok : st.err = false)
    (hlen : ¬(ln.length > 80 ∧ ln[80]? ≠ some '\n'))
    (hbc : rtrimWs (ln.dropWhile isSpaceC) = [] ∨
           (rtrimWs (ln.dropWhile isSpaceC)).head? = some ';') :
    pre_step st ln =
      { st with out := st.out ++
          [ln.takeWhile isSpaceC ++ rtrimWs (ln.dropWhile isSpaceC)] } := by
  unfold pre_step
  rw [if_neg (by simp [hok]), if_neg hlen]
  simp only []
  rw [if_pos hbc]

/-- Witness for the amended C5: a comment-only line in the initial state is
appended to the output, trailing newline removed. -/
theorem pre_blank_comment_line_witness :
    ({} : PreState).err = false ∧
    ¬("; note\n".toList.length > 80 ∧ "; note\n".toList[80]? ≠ some '\n') ∧
    (rtrimWs ("; note\n".toList.dropWhile isSpaceC) = [] ∨
     (rtrimWs ("; note\n".toList.dropWhile isSpaceC)).head? = some ';') ∧
    pre_step {} "; note\n".toList =
      { ({} : PreState) with out := ({} : PreState).out ++
          ["; note\n".toList.takeWhile isSpaceC ++
           rtrimWs ("; note\n".toList.dropWhile isSpaceC)] } :=
  ⟨rfl, by decide, by decide,
   pre_blank_comment_line {} "; note\n".toList rfl (by decide) (by decide)⟩

end ASM
